import Mathlib

/-!
Verification development for the porter-lib cast-model translator
(crates/porter-model/src/model_file_type_cast.rs, function to_cast).

The scene data model (Model, Mesh, Material, Skeleton, IKHandle,
Constraint, BlendShape) is embedded from the fields and methods the
translator reads.  32-bit floating point scalars are modelled as
integers: every claim below is about emission structure (which
properties exist, their widths, their order, their element counts),
never about floating point arithmetic identities.

The porter-cast crate (CastNode, CastFile, the identity hash) is not
part of the sources; its node identity assignment is modelled from the
spec, see the comment on CastNode.
-/

namespace Porter

/-- Opaque model of a 32-bit float scalar. -/
abbrev F32 := Int

/-- porter_math Vector2, components modelled abstractly. -/
structure Vector2 where
  u : F32
  v : F32
deriving DecidableEq, Repr

/-- porter_math Vector3, components modelled abstractly. -/
structure Vector3 where
  x : F32
  y : F32
  z : F32
deriving DecidableEq, Repr

/-- porter_math Quaternion (emitted as a Vector4 property). -/
structure Quaternion where
  x : F32
  y : F32
  z : F32
  w : F32
deriving DecidableEq, Repr

/-- Componentwise addition, as the porter_math Add impl for Vector3. -/
instance : Add Vector3 where
  add a b := ⟨a.x + b.x, a.y + b.y, a.z + b.z⟩

/-- porter_cast::CastPropertyId: the closed set of property type tags. -/
inductive CastPropertyId where
  | Byte
  | Short
  | Integer32
  | Integer64
  | Float
  | String
  | Vector2
  | Vector3
  | Vector4
deriving DecidableEq, Repr

/-- porter_cast::CastId: the closed set of node kinds used by to_cast. -/
inductive CastId where
  | Root
  | Metadata
  | Model
  | Skeleton
  | Bone
  | IKHandle
  | Constraint
  | Material
  | File
  | Mesh
  | BlendShape
deriving DecidableEq, Repr

/-- One element of a typed cast property.  The constructor records the
element width the value was pushed at. -/
inductive CastValue where
  | byte (v : Nat)
  | short (v : Nat)
  | int32 (v : Nat)
  | int64 (v : Nat)
  | float (v : F32)
  | str (v : String)
  | vec2 (v : Vector2)
  | vec3 (v : Vector3)
  | vec4 (v : Quaternion)
deriving DecidableEq, Repr

/-- A named typed property: an append-only array of elements. -/
structure CastProperty where
  id : CastPropertyId
  name : String
  values : List CastValue
deriving DecidableEq, Repr

instance : Inhabited CastProperty where
  default := ⟨CastPropertyId.Byte, "", []⟩

/-- A cast node: kind, 64-bit identity hash, properties in creation
order, children in creation order.

Modelled from the spec: the porter-cast crate is not among the sources;
per spec section 4.2 every node receives on creation a fresh 64-bit
identity, unique across the whole file (for example an incrementing
counter).  The embedding passes an explicit creation counter through
the translation and stores the counter value as the hash field. -/
inductive CastNode where
  | mk (identifier : CastId) (hash : Nat) (properties : List CastProperty)
      (children : List CastNode)

/-- Node kind accessor. -/
def CastNode.identifier : CastNode → CastId
  | .mk k _ _ _ => k

/-- Node identity hash accessor. -/
def CastNode.hash : CastNode → Nat
  | .mk _ h _ _ => h

/-- Node property list accessor. -/
def CastNode.properties : CastNode → List CastProperty
  | .mk _ _ ps _ => ps

/-- Node children accessor. -/
def CastNode.children : CastNode → List CastNode
  | .mk _ _ _ cs => cs

instance : Inhabited CastNode where
  default := .mk .Root 0 [] []

/-- First property with the given name, mirroring how a cast reader
resolves a property on a node. -/
def findProp (n : CastNode) (nm : String) : Option CastProperty :=
  n.properties.find? (fun p => p.name == nm)

/-- Whether the node carries a property with the given name. -/
def hasProp (n : CastNode) (nm : String) : Bool :=
  n.properties.any (fun p => p.name == nm)

mutual

/-- All identity hashes of a node tree, preorder. -/
def nodeHashes : CastNode → List Nat
  | .mk _ h _ children => h :: forestHashes children

/-- All identity hashes of a node forest, preorder. -/
def forestHashes : List CastNode → List Nat
  | [] => []
  | n :: ns => nodeHashes n ++ forestHashes ns

end

/-- Rust integer cast to u8 (truncation mod 2^8). -/
def toU8 (v : Nat) : Nat := v % 2 ^ 8

/-- Rust integer cast to u16 (truncation mod 2^16). -/
def toU16 (v : Nat) : Nat := v % 2 ^ 16

/-- Rust integer cast to u32 (truncation mod 2^32). -/
def toU32 (v : Nat) : Nat := v % 2 ^ 32

/-- Rust cast from i32 to u32: reinterpretation of the signed bit pattern,
which is reduction modulo 2^32. -/
def i32ToU32 (v : Int) : Nat := (v % (2 ^ 32 : Int)).toNat

/-! ## The scene data model, as read by to_cast -/

/-- porter_math::Axis. -/
inductive Axis where
  | X
  | Y
  | Z
deriving DecidableEq, Repr

/-- porter_model::SkinningMethod. -/
inductive SkinningMethod where
  | Linear
  | DualQuaternion
deriving DecidableEq, Repr

/-- porter_model::ConstraintType. -/
inductive ConstraintType where
  | Point
  | Orient
  | Scale
deriving DecidableEq, Repr

/-- porter_model::MaterialTextureRefUsage. -/
inductive MaterialTextureRefUsage where
  | Albedo
  | Diffuse
  | Specular
  | Normal
  | Emissive
  | Gloss
  | Roughness
  | AmbientOcclusion
  | Cavity
  | Metalness
  | Anisotropy
  | Unknown
  | Count
deriving DecidableEq, Repr

/-- porter_model::Bone, with the fields to_cast reads.  The translator
pattern-matches the transform channels as Options (both-or-neither
emission), so they are modelled as Option fields here; parent is an
i32, modelled as Int. -/
structure Bone where
  name : Option String
  parent : Int
  local_position : Option Vector3
  local_rotation : Option Quaternion
  local_scale : Option Vector3
  world_position : Option Vector3
  world_rotation : Option Quaternion
deriving Repr

/-- porter_model::IKHandle, fields as read by to_cast.  Bone
references are indices into the skeleton bone list. -/
structure IKHandle where
  name : Option String
  start_bone : Nat
  end_bone : Nat
  target_bone : Option Nat
  pole_vector_bone : Option Nat
  pole_bone : Option Nat
  use_target_rotation : Bool
deriving Repr

/-- porter_model::Constraint, fields as read by to_cast. -/
structure Constraint where
  name : Option String
  constraint_type : ConstraintType
  constraint_bone : Nat
  target_bone : Nat
  maintain_offset : Bool
  skip_x : Bool
  skip_y : Bool
  skip_z : Bool
deriving Repr

/-- porter_model::Skeleton, fields as read by to_cast. -/
structure Skeleton where
  bones : List Bone
  ik_handles : List IKHandle
  constraints : List Constraint
deriving Repr

/-- porter_model::MaterialTextureRef, fields as read by to_cast. -/
structure MaterialTextureRef where
  file_name : String
  texture_usage : MaterialTextureRefUsage
deriving Repr

/-- porter_model::Material: material.len() is the texture count. -/
structure Material where
  name : String
  textures : List MaterialTextureRef
deriving Repr

/-- One vertex weight: bone index (u16 in the source) and value. -/
structure VertexWeight where
  bone : Nat
  value : F32
deriving Repr

/-- One vertex of a vertex buffer, with its per-layer attributes. -/
structure Vertex where
  position : Vector3
  normal : Vector3
  colors : List Nat
  uvs : List Vector2
  weights : List VertexWeight
deriving Repr

instance : Inhabited Vertex where
  default := ⟨⟨0, 0, 0⟩, ⟨0, 0, 0⟩, [], [], []⟩

/-- Color of a vertex in the given color layer (u32). -/
def Vertex.color (v : Vertex) (cl : Nat) : Nat := v.colors.getD cl 0

/-- UV of a vertex in the given uv layer. -/
def Vertex.uv (v : Vertex) (l : Nat) : Vector2 := v.uvs.getD l ⟨0, 0⟩

/-- Weight of a vertex at the given influence slot. -/
def Vertex.weight (v : Vertex) (w : Nat) : VertexWeight :=
  v.weights.getD w ⟨0, 0⟩

/-- porter_model VertexBuffer, with the accessors to_cast calls:
len, vertex(i), uv_layers, maximum_influence, colors. -/
structure VertexBuffer where
  verts : List Vertex
  uv_layers : Nat
  maximum_influence : Nat
  colors : Nat
deriving Repr

/-- Vertex count of the buffer. -/
def VertexBuffer.len (b : VertexBuffer) : Nat := b.verts.length

/-- The i-th vertex of the buffer. -/
def VertexBuffer.vertex (b : VertexBuffer) (i : Nat) : Vertex :=
  b.verts.getD i default

/-- A triangle face of u32 vertex indices, in memory order i1 i2 i3. -/
structure Face where
  i1 : Nat
  i2 : Nat
  i3 : Nat
deriving DecidableEq, Repr

instance : Inhabited Face where
  default := ⟨0, 0, 0⟩

/-- porter_model::BlendShape: name, target scale and the sparse map of
vertex index to position delta, modelled as the list of map entries in
iteration order (both to_cast loops walk the same map, so index and
position emission see one order). -/
structure BlendShape where
  name : String
  target_scale : F32
  vertex_deltas : List (Nat × Vector3)
deriving Repr

instance : Inhabited BlendShape where
  default := ⟨"", 0, []⟩

/-- porter_model::Mesh, fields as read by to_cast. -/
structure Mesh where
  name : Option String
  vertices : VertexBuffer
  faces : List Face
  material : Option Nat
  blend_shapes : List BlendShape
  skinning_method : SkinningMethod
deriving Repr

/-- porter_model::Model, fields as read by to_cast. -/
structure Model where
  up_axis : Axis
  skeleton : Skeleton
  materials : List Material
  meshes : List Mesh
deriving Repr

/-! ## Decimal formatting, the model of Rust format! interpolation -/

/-- Decimal digit to its character. -/
def digitChar (d : Nat) : Char :=
  match d with
  | 0 => '0'
  | 1 => '1'
  | 2 => '2'
  | 3 => '3'
  | 4 => '4'
  | 5 => '5'
  | 6 => '6'
  | 7 => '7'
  | 8 => '8'
  | _ => '9'

/-- Decimal digits of a number, least significant first; empty for 0. -/
def natDigitsRev (n : Nat) : List Nat :=
  if h : n = 0 then []
  else (n % 10) :: natDigitsRev (n / 10)
decreasing_by exact Nat.div_lt_self (Nat.pos_of_ne_zero h) (by omega)

/-- Decimal string of a number, the model of Rust Display for usize. -/
def natDecimal (n : Nat) : String :=
  if n = 0 then "0"
  else ⟨(natDigitsRev n).reverse.map digitChar⟩

/-! ## The translator: porter-model model_file_type_cast.rs, to_cast -/

/-- Minimal integer width for an index stream whose selection key is
the given bound: the exact if-chain of to_cast. -/
def selectWidth (bound : Nat) : CastPropertyId :=
  if bound ≤ 0xFF then .Byte
  else if bound ≤ 0xFFFF then .Short
  else .Integer32

/-- Push one index value at the selected width, with the conversion
the matching branch performs; the reduction is the identity on values
already of the target unsigned type. -/
def indexValue (w : CastPropertyId) (v : Nat) : CastValue :=
  match w with
  | .Byte => .byte (toU8 v)
  | .Short => .short (toU16 v)
  | _ => .int32 (toU32 v)

/-- The Metadata node: author, source and up-axis strings. -/
def metadataNode (m : Model) : CastNode :=
  .mk .Metadata 1
    [⟨.String, "a", [.str "DTZxPorter"]⟩,
     ⟨.String, "s", [.str "Exported by PorterLib"]⟩,
     ⟨.String, "up",
       [.str (match m.up_axis with
              | .X => "x"
              | .Y => "y"
              | .Z => "z")]⟩] []

/-- One Bone node: name (defaulted), parent index, paired local and
world transforms, independent scale. -/
def boneNode (i : Nat) (b : Bone) (s : Nat) : CastNode :=
  .mk .Bone s
    ([⟨.String, "n", [.str (b.name.getD ("porter_bone_" ++ natDecimal i))]⟩,
      ⟨.Integer32, "p", [.int32 (i32ToU32 b.parent)]⟩]
     ++ (match b.local_position, b.local_rotation with
         | some lp, some lr =>
             [⟨.Vector3, "lp", [.vec3 lp]⟩, ⟨.Vector4, "lr", [.vec4 lr]⟩]
         | _, _ => [])
     ++ (match b.world_position, b.world_rotation with
         | some wp, some wr =>
             [⟨.Vector3, "wp", [.vec3 wp]⟩, ⟨.Vector4, "wr", [.vec4 wr]⟩]
         | _, _ => [])
     ++ (match b.local_scale with
         | some sc => [⟨.Vector3, "s", [.vec3 sc]⟩]
         | none => [])) []

/-- The Bone nodes of the skeleton, one per bone, ids in order. -/
def buildBones : List Bone → Nat → Nat → List CastNode
  | [], _, _ => []
  | b :: bs, i, s => boneNode i b s :: buildBones bs (i + 1) (s + 1)

/-- The bone identity table: bone index to bone node hash.  The table
holds exactly the indices 0 .. boneCount - 1; indexing a HashMap at a
missing key panics in the source, modelled as none. -/
def boneMapGet (boneCount boneStart i : Nat) : Option Nat :=
  if i < boneCount then some (boneStart + i) else none

/-- Optional bone-reference property of an IK handle: absent field
emits nothing, present field must resolve or the encode fails. -/
def optBoneRefProp (bc bst : Nat) (nm : String) :
    Option Nat → Option (List CastProperty)
  | none => some []
  | some t => (boneMapGet bc bst t).map (fun v => [⟨.Integer64, nm, [.int64 v]⟩])

/-- One IKHandle node; none models the panic of a failed bone-identity
lookup, which aborts the encode before any file is created. -/
def ikHandleNode (bc bst : Nat) (h : IKHandle) (s : Nat) : Option CastNode := do
  let sb ← boneMapGet bc bst h.start_bone
  let eb ← boneMapGet bc bst h.end_bone
  let tbp ← optBoneRefProp bc bst "tb" h.target_bone
  let pvp ← optBoneRefProp bc bst "pv" h.pole_vector_bone
  let pbp ← optBoneRefProp bc bst "pb" h.pole_bone
  some (.mk .IKHandle s
    ((match h.name with
      | some nm => [⟨.String, "n", [.str nm]⟩]
      | none => [])
     ++ [⟨.Integer64, "sb", [.int64 sb]⟩, ⟨.Integer64, "eb", [.int64 eb]⟩]
     ++ tbp ++ pvp ++ pbp
     ++ [⟨.Byte, "tr", [.byte h.use_target_rotation.toNat]⟩]) [])

/-- The IKHandle nodes, ids in order; none on the first failed lookup. -/
def buildIKHandles (bc bst : Nat) :
    List IKHandle → Nat → Option (List CastNode × Nat)
  | [], s => some ([], s)
  | h :: hs, s => do
    let n ← ikHandleNode bc bst h s
    let (ns, s1) ← buildIKHandles bc bst hs (s + 1)
    some (n :: ns, s1)

/-- One Constraint node; none models a failed bone-identity lookup. -/
def constraintNode (bc bst : Nat) (c : Constraint) (s : Nat) : Option CastNode := do
  let cb ← boneMapGet bc bst c.constraint_bone
  let tb ← boneMapGet bc bst c.target_bone
  some (.mk .Constraint s
    ((match c.name with
      | some nm => [⟨.String, "n", [.str nm]⟩]
      | none => [])
     ++ [⟨.String, "ct",
           [.str (match c.constraint_type with
                  | .Point => "pt"
                  | .Orient => "or"
                  | .Scale => "sc")]⟩,
         ⟨.Integer64, "cb", [.int64 cb]⟩,
         ⟨.Integer64, "tb", [.int64 tb]⟩,
         ⟨.Byte, "mo", [.byte c.maintain_offset.toNat]⟩,
         ⟨.Byte, "sx", [.byte c.skip_x.toNat]⟩,
         ⟨.Byte, "sy", [.byte c.skip_y.toNat]⟩,
         ⟨.Byte, "sz", [.byte c.skip_z.toNat]⟩]) [])

/-- The Constraint nodes, ids in order; none on a failed lookup. -/
def buildConstraints (bc bst : Nat) :
    List Constraint → Nat → Option (List CastNode × Nat)
  | [], s => some ([], s)
  | c :: cs, s => do
    let n ← constraintNode bc bst c s
    let (ns, s1) ← buildConstraints bc bst cs (s + 1)
    some (n :: ns, s1)

/-- The skeleton part of the Model node children.  When the bone list
is empty the whole block, IK handles and constraints included, is
skipped; otherwise one Skeleton node holding bones, IK handles and
constraints is built.  The Skeleton node takes id 3, bones start at 4. -/
def buildSkeleton (skel : Skeleton) : Option (List CastNode × Nat) :=
  if skel.bones.isEmpty then some ([], 3)
  else do
    let bn := buildBones skel.bones 0 4
    let (ik, s1) ← buildIKHandles skel.bones.length 4 skel.ik_handles
        (4 + skel.bones.length)
    let (cn, s2) ← buildConstraints skel.bones.length 4 skel.constraints s1
    some ([.mk .Skeleton 3 [] (bn ++ ik ++ cn)], s2)

/-- The fixed usage-to-slot-name table; unknown and overflow usages
get the positional fallback name. -/
def textureSlotName (u : MaterialTextureRefUsage) (i : Nat) : String :=
  match u with
  | .Albedo => "albedo"
  | .Diffuse => "diffuse"
  | .Specular => "specular"
  | .Normal => "normal"
  | .Emissive => "emissive"
  | .Gloss => "gloss"
  | .Roughness => "roughness"
  | .AmbientOcclusion => "ao"
  | .Cavity => "cavity"
  | .Metalness => "metal"
  | .Anisotropy => "aniso"
  | .Unknown => "extra" ++ natDecimal i
  | .Count => "extra" ++ natDecimal i

/-- The positional fallback slot name for texture index i. -/
def extraName (i : Nat) : String := "extra" ++ natDecimal i

/-- The texture loop of a material: builds the File child nodes and
the Integer64 slot properties, threading the used-slot set.  A slot
name already in use demotes the texture to its positional fallback;
a kept name is inserted into the used set. -/
def buildTextures : List MaterialTextureRef → Nat → Nat → List String →
    List CastNode × List CastProperty
  | [], _, _, _ => ([], [])
  | t :: ts, i, fid, used =>
    let fileNode : CastNode := .mk .File fid [⟨.String, "p", [.str t.file_name]⟩] []
    let slot0 := textureSlotName t.texture_usage i
    let step : String × List String :=
      if slot0 ∈ used then (extraName i, used) else (slot0, slot0 :: used)
    let rest := buildTextures ts (i + 1) (fid + 1) step.2
    (fileNode :: rest.1, ⟨.Integer64, step.1, [.int64 fid]⟩ :: rest.2)

/-- One Material node (hash s) with its File children at s+1 onward. -/
def materialNode (mat : Material) (s : Nat) : CastNode × Nat :=
  let fp := buildTextures mat.textures 0 (s + 1) []
  (.mk .Material s
     ([⟨.String, "n", [.str mat.name]⟩, ⟨.String, "t", [.str "pbr"]⟩] ++ fp.2)
     fp.1,
   s + 1 + mat.textures.length)

/-- The Material nodes, ids in creation order. -/
def buildMaterials : List Material → Nat → List CastNode × Nat
  | [], s => ([], s)
  | m :: ms, s =>
    let r := materialNode m s
    let rest := buildMaterials ms r.2
    (r.1 :: rest.1, rest.2)

/-- The material identity table: material index to material node hash.
A missing index yields none; to_cast silently skips the mesh material
property in that case. -/
def materialMapGet : List Material → Nat → Nat → Option Nat
  | [], _, _ => none
  | _ :: _, s, 0 => some s
  | m :: ms, s, j + 1 => materialMapGet ms (s + 1 + m.textures.length) j

/-- Vertex position stream, one Vector3 per vertex in order. -/
def meshPositions (vb : VertexBuffer) : List CastValue :=
  (List.range vb.len).map (fun i => .vec3 (vb.vertex i).position)

/-- Vertex normal stream, one Vector3 per vertex in order. -/
def meshNormals (vb : VertexBuffer) : List CastValue :=
  (List.range vb.len).map (fun i => .vec3 (vb.vertex i).normal)

/-- Color layer properties c0, c1, ...; one u32 per vertex each. -/
def colorLayerProps (vb : VertexBuffer) : List CastProperty :=
  (List.range vb.colors).map (fun cl =>
    ⟨.Integer32, "c" ++ natDecimal cl,
      (List.range vb.len).map (fun i => .int32 (toU32 ((vb.vertex i).color cl)))⟩)

/-- UV layer properties u0, u1, ...; one Vector2 per vertex each. -/
def uvLayerProps (vb : VertexBuffer) : List CastProperty :=
  (List.range vb.uv_layers).map (fun l =>
    ⟨.Vector2, "u" ++ natDecimal l,
      (List.range vb.len).map (fun i => .vec2 ((vb.vertex i).uv l))⟩)

/-- Flattened weight-bone-index stream: for each vertex, one entry per
influence slot, at the width selected from the bone count. -/
def weightBoneValues (vb : VertexBuffer) (w : CastPropertyId) : List CastValue :=
  (List.range vb.len).flatMap (fun i =>
    (List.range vb.maximum_influence).map (fun j =>
      indexValue w ((vb.vertex i).weight j).bone))

/-- Flattened weight-value stream, same layout as the bone indices. -/
def weightFloatValues (vb : VertexBuffer) : List CastValue :=
  (List.range vb.len).flatMap (fun i =>
    (List.range vb.maximum_influence).map (fun j =>
      .float ((vb.vertex i).weight j).value))

/-- Face index stream: per face the indices are pushed third, second,
first, at the width selected from the vertex count. -/
def faceValues (vertexCount : Nat) (faces : List Face) : List CastValue :=
  faces.flatMap (fun f =>
    [indexValue (selectWidth vertexCount) f.i3,
     indexValue (selectWidth vertexCount) f.i2,
     indexValue (selectWidth vertexCount) f.i1])

/-- The property list of one Mesh node, in to_cast emission order. -/
def meshProps (boneCount : Nat) (matMap : Nat → Option Nat) (mesh : Mesh) :
    List CastProperty :=
  (match mesh.name with
   | some nm => [⟨.String, "n", [.str nm]⟩]
   | none => [])
  ++ [⟨.Byte, "ul", [.byte (toU8 mesh.vertices.uv_layers)]⟩,
      ⟨.Byte, "mi", [.byte (toU8 mesh.vertices.maximum_influence)]⟩,
      ⟨.Byte, "cl", [.byte (toU8 mesh.vertices.colors)]⟩,
      ⟨.String, "sm",
        [.str (match mesh.skinning_method with
               | .Linear => "linear"
               | .DualQuaternion => "quaternion")]⟩,
      ⟨.Vector3, "vp", meshPositions mesh.vertices⟩,
      ⟨.Vector3, "vn", meshNormals mesh.vertices⟩]
  ++ colorLayerProps mesh.vertices
  ++ uvLayerProps mesh.vertices
  ++ (if boneCount = 0 then []
      else
        [⟨selectWidth boneCount, "wb",
           weightBoneValues mesh.vertices (selectWidth boneCount)⟩,
         ⟨.Float, "wv", weightFloatValues mesh.vertices⟩])
  ++ [⟨selectWidth mesh.vertices.len, "f",
        faceValues mesh.vertices.len mesh.faces⟩]
  ++ (match mesh.material with
      | some mi =>
        match matMap mi with
        | some h => [⟨.Integer64, "m", [.int64 h]⟩]
        | none => []
      | none => [])

/-- Maximum vertex index present in a blend shape delta map, or 0 when
the map is empty (keys max unwrap_or_default). -/
def blendShapeMaxIndex (bs : BlendShape) : Nat :=
  (bs.vertex_deltas.map Prod.fst).foldr max 0

/-- One BlendShape node: name, back reference to the owning mesh,
target scale, the sparse index stream at the width selected from the
maximum present index, and base-plus-delta positions. -/
def blendShapeNode (mesh : Mesh) (meshHash : Nat) (bs : BlendShape) (s : Nat) :
    CastNode :=
  .mk .BlendShape s
    [⟨.String, "n", [.str bs.name]⟩,
     ⟨.Integer64, "b", [.int64 meshHash]⟩,
     ⟨.Float, "ts", [.float bs.target_scale]⟩,
     ⟨selectWidth (blendShapeMaxIndex bs), "vi",
       bs.vertex_deltas.map (fun kv =>
         indexValue (selectWidth (blendShapeMaxIndex bs)) kv.1)⟩,
     ⟨.Vector3, "vp",
       bs.vertex_deltas.map (fun kv =>
         .vec3 ((mesh.vertices.vertex kv.1).position + kv.2))⟩] []

/-- The BlendShape nodes of one mesh, ids in order. -/
def buildBlendShapes (mesh : Mesh) (meshHash : Nat) :
    List BlendShape → Nat → List CastNode
  | [], _ => []
  | b :: bsr, s => blendShapeNode mesh meshHash b s :: buildBlendShapes mesh meshHash bsr (s + 1)

/-- One mesh: the Mesh node (hash s) followed by its BlendShape nodes,
all siblings under the Model node. -/
def buildMesh (boneCount : Nat) (mats : List Material) (matStart : Nat)
    (mesh : Mesh) (s : Nat) : List CastNode × Nat :=
  (.mk .Mesh s (meshProps boneCount (materialMapGet mats matStart) mesh) []
     :: buildBlendShapes mesh s mesh.blend_shapes (s + 1),
   s + 1 + mesh.blend_shapes.length)

/-- All meshes with their inline blend shapes, ids in creation order. -/
def buildMeshes (boneCount : Nat) (mats : List Material) (matStart : Nat) :
    List Mesh → Nat → List CastNode × Nat
  | [], s => ([], s)
  | m :: ms, s =>
    let r := buildMesh boneCount mats matStart m s
    let rest := buildMeshes boneCount mats matStart ms r.2
    (r.1 ++ rest.1, rest.2)

/-- The translator: Root (hash 0) holding Metadata (hash 1) and Model
(hash 2); under Model the skeleton part, the materials, then the
meshes with inline blend shapes.  The result none models a panic on a
failed bone-identity lookup; the output file is created only after the
tree is complete, so none also means no output file. -/
def to_cast (m : Model) : Option CastNode := do
  let (skel, s1) ← buildSkeleton m.skeleton
  let mats := buildMaterials m.materials s1
  let meshes := buildMeshes m.skeleton.bones.length m.materials s1 m.meshes mats.2
  some (.mk .Root 0 []
    [metadataNode m, .mk .Model 2 [] (skel ++ mats.1 ++ meshes.1)])

instance : Inhabited CastValue where
  default := .byte 0

/-! ## General helpers -/

theorem findProp_mk (k : CastId) (h : Nat) (ps : List CastProperty)
    (cs : List CastNode) (nm : String) :
    findProp (.mk k h ps cs) nm = ps.find? (fun p => p.name == nm) := rfl

theorem hasProp_mk (k : CastId) (h : Nat) (ps : List CastProperty)
    (cs : List CastNode) (nm : String) :
    hasProp (.mk k h ps cs) nm = ps.any (fun p => p.name == nm) := rfl

/-! ## Claims about bone emission (boneNode) -/

/-- C5: the local transform pair lp and lr is emitted exactly when both
local position and local rotation are present, the world pair wp and wr
exactly when both world position and world rotation are present, and
the scale property s exactly when the scale is present, independently
of the other channels. -/
theorem bone_transform_pairing (i s : Nat) (b : Bone) :
    hasProp (boneNode i b s) "lp"
        = (b.local_position.isSome && b.local_rotation.isSome)
    ∧ hasProp (boneNode i b s) "lr"
        = (b.local_position.isSome && b.local_rotation.isSome)
    ∧ hasProp (boneNode i b s) "wp"
        = (b.world_position.isSome && b.world_rotation.isSome)
    ∧ hasProp (boneNode i b s) "wr"
        = (b.world_position.isSome && b.world_rotation.isSome)
    ∧ hasProp (boneNode i b s) "s" = b.local_scale.isSome := by
  rcases b with ⟨nm, pa, lp, lr, sc, wp, wr⟩
  cases lp <;> cases lr <;> cases wp <;> cases wr <;> cases sc <;>
    simp [boneNode, hasProp, CastNode.properties]

/-- C10: every bone node carries a p property of type Integer32 whose
single element is the signed parent index reduced modulo 2^32, with no
absence check; a root parent of -1 becomes 4294967295. -/
theorem bone_parent_modular (i s : Nat) (b : Bone) :
    findProp (boneNode i b s) "p"
        = some ⟨.Integer32, "p", [.int32 (i32ToU32 b.parent)]⟩
    ∧ i32ToU32 b.parent = (b.parent % (2 ^ 32 : Int)).toNat
    ∧ i32ToU32 (-1) = 4294967295 := by
  refine ⟨?_, rfl, by decide⟩
  rcases b with ⟨nm, pa, lp, lr, sc, wp, wr⟩
  simp [boneNode, findProp, CastNode.properties]

/-! ## String name disequalities for generated property names -/

theorem c_name_ne_f (x : String) : "c" ++ x ≠ "f" := by
  intro h
  have h2 : ("c" ++ x).data = "f".data := congrArg String.data h
  simp at h2

theorem u_name_ne_f (x : String) : "u" ++ x ≠ "f" := by
  intro h
  have h2 : ("u" ++ x).data = "f".data := congrArg String.data h
  simp at h2

theorem c_name_ne_m (x : String) : "c" ++ x ≠ "m" := by
  intro h
  have h2 : ("c" ++ x).data = "m".data := congrArg String.data h
  simp at h2

theorem u_name_ne_m (x : String) : "u" ++ x ≠ "m" := by
  intro h
  have h2 : ("u" ++ x).data = "m".data := congrArg String.data h
  simp at h2

theorem c_name_ne_wb (x : String) : "c" ++ x ≠ "wb" := by
  intro h
  have h2 : ("c" ++ x).data = "wb".data := congrArg String.data h
  simp at h2

theorem u_name_ne_wb (x : String) : "u" ++ x ≠ "wb" := by
  intro h
  have h2 : ("u" ++ x).data = "wb".data := congrArg String.data h
  simp at h2

/-! ## Locating properties on a mesh node -/

theorem find?_colorProps_none (vb : VertexBuffer) (nm : String)
    (h : ∀ x : String, "c" ++ x ≠ nm) :
    (colorLayerProps vb).find? (fun p => p.name == nm) = none := by
  rw [List.find?_eq_none]
  intro p hp
  simp only [colorLayerProps, List.mem_map, List.mem_range] at hp
  obtain ⟨cl, hcl, rfl⟩ := hp
  simpa using h (natDecimal cl)

theorem find?_uvProps_none (vb : VertexBuffer) (nm : String)
    (h : ∀ x : String, "u" ++ x ≠ nm) :
    (uvLayerProps vb).find? (fun p => p.name == nm) = none := by
  rw [List.find?_eq_none]
  intro p hp
  simp only [uvLayerProps, List.mem_map, List.mem_range] at hp
  obtain ⟨l, hl, rfl⟩ := hp
  simpa using h (natDecimal l)

/-- The f property of a mesh node: always present, at the width
selected from the vertex count, holding the face stream. -/
theorem findProp_mesh_f (bc : Nat) (mm : Nat → Option Nat) (mesh : Mesh)
    (s : Nat) :
    findProp (.mk .Mesh s (meshProps bc mm mesh) []) "f" =
      some ⟨selectWidth mesh.vertices.len, "f",
        faceValues mesh.vertices.len mesh.faces⟩ := by
  rcases hnm : mesh.name with _ | n <;> by_cases hbc : bc = 0 <;>
    simp [findProp, meshProps, CastNode.properties, hnm, hbc,
      find?_colorProps_none _ _ c_name_ne_f, find?_uvProps_none _ _ u_name_ne_f]

/-- The wb property of a mesh node with a non-empty skeleton: present,
at the width selected from the bone count, holding the flattened
weight-bone-index stream. -/
theorem findProp_mesh_wb (bc : Nat) (mm : Nat → Option Nat) (mesh : Mesh)
    (s : Nat) (hbc : bc ≠ 0) :
    findProp (.mk .Mesh s (meshProps bc mm mesh) []) "wb" =
      some ⟨selectWidth bc, "wb",
        weightBoneValues mesh.vertices (selectWidth bc)⟩ := by
  rcases hnm : mesh.name with _ | n <;>
    simp [findProp, meshProps, CastNode.properties, hnm, hbc,
      find?_colorProps_none _ _ c_name_ne_wb, find?_uvProps_none _ _ u_name_ne_wb]

/-- The m property of a mesh node resolves through the material
identity table: emitted with the resolved hash, silently absent when
the mesh has no material or the lookup misses. -/
theorem findProp_mesh_m (bc : Nat) (mm : Nat → Option Nat) (mesh : Mesh)
    (s : Nat) :
    findProp (.mk .Mesh s (meshProps bc mm mesh) []) "m" =
      (match mesh.material with
       | some mi => (mm mi).map (fun h => ⟨.Integer64, "m", [.int64 h]⟩)
       | none => none) := by
  rcases hnm : mesh.name with _ | n <;> by_cases hbc : bc = 0 <;>
    rcases hmat : mesh.material with _ | mi <;>
      simp [findProp, meshProps, CastNode.properties, hnm, hbc, hmat,
        find?_colorProps_none _ _ c_name_ne_m, find?_uvProps_none _ _ u_name_ne_m]
  <;> rcases mm mi with _ | hh <;> simp

/-! ## Face stream shape -/

theorem faceValues_length (vc : Nat) (faces : List Face) :
    (faceValues vc faces).length = 3 * faces.length := by
  induction faces with
  | nil => simp [faceValues]
  | cons f fs ih =>
    simp only [faceValues, List.flatMap_cons, List.length_append,
      List.length_cons, List.length_nil] at ih ⊢
    omega

theorem faceValues_getD (vc : Nat) (faces : List Face) (j : Nat)
    (hj : j < faces.length) :
    (faceValues vc faces).getD (3 * j) default
        = indexValue (selectWidth vc) (faces.getD j default).i3
    ∧ (faceValues vc faces).getD (3 * j + 1) default
        = indexValue (selectWidth vc) (faces.getD j default).i2
    ∧ (faceValues vc faces).getD (3 * j + 2) default
        = indexValue (selectWidth vc) (faces.getD j default).i1 := by
  induction faces generalizing j with
  | nil => simp at hj
  | cons f fs ih =>
    cases j with
    | zero => simp [faceValues]
    | succ j =>
      have h3 : 3 * (j + 1) = 3 * j + 1 + 1 + 1 := by ring
      rw [h3]
      have h5 : 3 * j + 1 + 1 + 1 + 2 = 3 * j + 1 + 1 + 1 + 1 + 1 := by ring
      rw [h5]
      simp only [faceValues, List.flatMap_cons, List.cons_append,
        List.nil_append, List.getD_cons_succ, List.getD]
      have := ih j (by simpa using hj)
      simpa [faceValues, List.getD] using this

/-- C8: the face stream of every mesh emits, for each face, its three
indices in reverse memory order: third, second, first. -/
theorem face_winding_reversed (bc : Nat) (mats : List Material) (mst : Nat)
    (mesh : Mesh) (s : Nat) :
    ∃ p, findProp ((buildMesh bc mats mst mesh s).1.headD default) "f" = some p
      ∧ p.values.length = 3 * mesh.faces.length
      ∧ ∀ j, j < mesh.faces.length →
          p.values.getD (3 * j) default
              = indexValue (selectWidth mesh.vertices.len)
                  (mesh.faces.getD j default).i3
          ∧ p.values.getD (3 * j + 1) default
              = indexValue (selectWidth mesh.vertices.len)
                  (mesh.faces.getD j default).i2
          ∧ p.values.getD (3 * j + 2) default
              = indexValue (selectWidth mesh.vertices.len)
                  (mesh.faces.getD j default).i1 := by
  refine ⟨_, findProp_mesh_f bc (materialMapGet mats mst) mesh s, ?_, ?_⟩
  · exact faceValues_length _ _
  · intro j hj
    exact faceValues_getD _ _ j hj

/-! ## Material reference resolution (C2) -/

theorem materialMapGet_none (mats : List Material) (mst mi : Nat)
    (h : mats.length ≤ mi) : materialMapGet mats mst mi = none := by
  induction mats generalizing mst mi with
  | nil => rfl
  | cons m ms ih =>
    cases mi with
    | zero => simp at h
    | succ mi => exact ih _ _ (by simpa using h)

theorem to_cast_isSome_of_skeleton (m : Model)
    (h : buildSkeleton m.skeleton ≠ none) : (to_cast m).isSome = true := by
  rcases hsk : buildSkeleton m.skeleton with _ | ⟨skel, s1⟩
  · exact absurd hsk h
  · simp [to_cast, hsk]

/-- A faceless single-vertex mesh claiming material index 0 in a model
with an empty material list. -/
def c2Mesh : Mesh := ⟨some "m0", ⟨[default], 0, 0, 0⟩, [], some 0, [], .Linear⟩

/-- The model for the C2 counterexample: no materials at all. -/
def c2Model : Model := ⟨.Y, ⟨[], [], []⟩, [], [c2Mesh]⟩

/-- The tree to_cast produces for the C2 counterexample. -/
def c2Root : CastNode := (to_cast c2Model).getD default

/-- The mesh node of the C2 counterexample tree. -/
def c2MeshNode : CastNode :=
  (c2Root.children.getD 1 default).children.getD 0 default

/-- C2 counterexample: the mesh references material 0, the material
table is empty, yet translation succeeds (a file is produced) and the
mesh node simply has no m property: the missing reference is silently
omitted, not a reference-resolution failure. -/
theorem missing_material_not_fatal :
    c2Mesh.material = some 0
    ∧ c2Model.materials = []
    ∧ (to_cast c2Model).isSome = true
    ∧ c2MeshNode.identifier = CastId.Mesh
    ∧ findProp c2MeshNode "m" = none := by
  refine ⟨rfl, rfl, rfl, rfl, by decide⟩

/-- C2 amended: a mesh material index missing from the material
identity table is silently omitted (the mesh node carries no m
property) and translation still succeeds; failure of to_cast can only
come from the skeleton block. -/
theorem missing_material_silently_omitted
    (bc : Nat) (mats : List Material) (mst : Nat) (mesh : Mesh) (s : Nat)
    (mi : Nat) (hmi : mesh.material = some mi) (hmiss : mats.length ≤ mi) :
    findProp ((buildMesh bc mats mst mesh s).1.headD default) "m" = none
    ∧ ∀ m : Model, buildSkeleton m.skeleton ≠ none →
        (to_cast m).isSome = true := by
  constructor
  · have hb : (buildMesh bc mats mst mesh s).1.headD default
        = .mk .Mesh s (meshProps bc (materialMapGet mats mst) mesh) [] := rfl
    rw [hb, findProp_mesh_m, hmi]
    simp [materialMapGet_none mats mst mi hmiss]
  · exact to_cast_isSome_of_skeleton

/-- C2 amended witness at the concrete counterexample input. -/
theorem missing_material_silently_omitted_witness :
    findProp ((buildMesh 0 [] 3 c2Mesh 3).1.headD default) "m" = none
    ∧ (to_cast c2Model).isSome = true := by
  have h := missing_material_silently_omitted 0 [] 3 c2Mesh 3 0 rfl (by decide)
  refine ⟨h.1, h.2 c2Model ?_⟩
  intro hn
  rw [show buildSkeleton c2Model.skeleton = some ([], 3) from rfl] at hn
  exact Option.noConfusion hn

/-! ## Node kind order under the Model node (C9) -/

theorem buildMaterials_kinds (ms : List Material) (s : Nat) :
    (buildMaterials ms s).1.map CastNode.identifier
      = ms.map (fun _ => CastId.Material) := by
  induction ms generalizing s with
  | nil => rfl
  | cons m rest ih => simp [buildMaterials, materialNode, CastNode.identifier, ih]

theorem buildBlendShapes_kinds (mesh : Mesh) (mh : Nat) (bss : List BlendShape)
    (s : Nat) :
    (buildBlendShapes mesh mh bss s).map CastNode.identifier
      = bss.map (fun _ => CastId.BlendShape) := by
  induction bss generalizing s with
  | nil => rfl
  | cons b rest ih =>
    simp [buildBlendShapes, blendShapeNode, CastNode.identifier, ih]

theorem buildMeshes_kinds (bc : Nat) (mats : List Material) (mst : Nat)
    (ms : List Mesh) (s : Nat) :
    (buildMeshes bc mats mst ms s).1.map CastNode.identifier
      = ms.flatMap (fun mesh =>
          CastId.Mesh :: mesh.blend_shapes.map (fun _ => CastId.BlendShape)) := by
  induction ms generalizing s with
  | nil => rfl
  | cons mesh rest ih =>
    simp [buildMeshes, buildMesh, CastNode.identifier, ih,
      buildBlendShapes_kinds]

theorem buildSkeleton_kinds (skel : Skeleton) (ns : List CastNode) (s1 : Nat)
    (h : buildSkeleton skel = some (ns, s1)) :
    ns.map CastNode.identifier
      = if skel.bones.isEmpty then [] else [CastId.Skeleton] := by
  cases hb : skel.bones.isEmpty with
  | true =>
    simp [buildSkeleton, hb] at h
    simp [hb, ← h.1]
  | false =>
    simp only [buildSkeleton, hb, Bool.false_eq_true, if_false,
      Option.bind_eq_bind, Option.bind_eq_some] at h
    obtain ⟨⟨ik, sa⟩, hik, ⟨cn, sb⟩, hcn, heq⟩ := h
    simp only [Option.some.injEq, Prod.mk.injEq] at heq
    rw [← heq.1]
    simp [hb, CastNode.identifier]

/-- C9: the translated tree is one Root holding Metadata then Model;
under Model come the Skeleton node exactly when bones exist, then all
Material nodes, then the Mesh nodes each immediately followed by its
own BlendShape nodes. -/
theorem node_tree_fixed_order (m : Model) (root : CastNode)
    (h : to_cast m = some root) :
    root.identifier = CastId.Root
    ∧ root.children.map CastNode.identifier = [CastId.Metadata, CastId.Model]
    ∧ (root.children.getD 1 default).children.map CastNode.identifier =
        (if m.skeleton.bones.isEmpty then [] else [CastId.Skeleton])
        ++ m.materials.map (fun _ => CastId.Material)
        ++ m.meshes.flatMap (fun mesh =>
            CastId.Mesh :: mesh.blend_shapes.map (fun _ => CastId.BlendShape)) := by
  rcases hsk : buildSkeleton m.skeleton with _ | ⟨skel, s1⟩
  · simp [to_cast, hsk] at h
  · simp only [to_cast, hsk, Option.bind_eq_bind, Option.some_bind] at h
    rw [Option.some.injEq] at h
    subst h
    refine ⟨rfl, rfl, ?_⟩
    simp only [CastNode.children, List.getD, List.get?_cons_succ,
      List.get?_cons_zero, Option.getD_some, List.map_append]
    rw [buildSkeleton_kinds m.skeleton skel s1 hsk, buildMaterials_kinds,
      buildMeshes_kinds]

/-- A one-bone, one-material, one-mesh, one-blend-shape model. -/
def c9Model : Model :=
  ⟨.Z,
   ⟨[⟨some "root", -1, some ⟨0, 0, 0⟩, some ⟨0, 0, 0, 1⟩, none, none, none⟩],
    [], []⟩,
   [⟨"mat", []⟩],
   [⟨some "mesh", ⟨[default], 0, 1, 0⟩, [⟨0, 0, 0⟩], some 0,
     [⟨"shape", 1, [(0, ⟨1, 0, 0⟩)]⟩], .Linear⟩]⟩

/-- The tree to_cast produces for the C9 witness model. -/
def c9Root : CastNode := (to_cast c9Model).getD default

/-- C9 witness: the fixed order at a concrete model carrying every
node kind. -/
theorem node_tree_fixed_order_witness :
    to_cast c9Model = some c9Root
    ∧ (c9Root.identifier = CastId.Root
    ∧ c9Root.children.map CastNode.identifier = [CastId.Metadata, CastId.Model]
    ∧ (c9Root.children.getD 1 default).children.map CastNode.identifier =
        (if c9Model.skeleton.bones.isEmpty then [] else [CastId.Skeleton])
        ++ c9Model.materials.map (fun _ => CastId.Material)
        ++ c9Model.meshes.flatMap (fun mesh =>
            CastId.Mesh :: mesh.blend_shapes.map (fun _ => CastId.BlendShape))) :=
  ⟨rfl, node_tree_fixed_order c9Model c9Root rfl⟩

/-! ## Identity hash ranges (C4) -/

theorem nodeHashes_mk (k : CastId) (h : Nat) (ps : List CastProperty)
    (cs : List CastNode) : nodeHashes (.mk k h ps cs) = h :: forestHashes cs := by
  simp [nodeHashes]

theorem forestHashes_nil : forestHashes [] = [] := by
  simp [forestHashes]

theorem forestHashes_cons (n : CastNode) (ns : List CastNode) :
    forestHashes (n :: ns) = nodeHashes n ++ forestHashes ns := by
  simp [forestHashes]

theorem forestHashes_append (l1 l2 : List CastNode) :
    forestHashes (l1 ++ l2) = forestHashes l1 ++ forestHashes l2 := by
  induction l1 with
  | nil => simp [forestHashes_nil]
  | cons n ns ih => simp [forestHashes_cons, ih]

theorem buildBones_hashes (bs : List Bone) (i s : Nat) :
    forestHashes (buildBones bs i s) = List.range' s bs.length := by
  induction bs generalizing i s with
  | nil => simp [buildBones, forestHashes_nil]
  | cons b rest ih =>
    simp [buildBones, forestHashes_cons, boneNode, nodeHashes_mk,
      forestHashes_nil, ih, List.range'_succ]

theorem ikHandleNode_hashes (bc bst : Nat) (hk : IKHandle) (s : Nat)
    (n : CastNode) (he : ikHandleNode bc bst hk s = some n) :
    nodeHashes n = [s] := by
  simp only [ikHandleNode, Option.bind_eq_bind, Option.bind_eq_some,
    Option.some.injEq] at he
  obtain ⟨sb, _, eb, _, tbp, _, pvp, _, pbp, _, hn⟩ := he
  rw [← hn, nodeHashes_mk, forestHashes_nil]

theorem buildIKHandles_hashes (bc bst : Nat) (hs : List IKHandle) (s : Nat)
    (ns : List CastNode) (s1 : Nat)
    (h : buildIKHandles bc bst hs s = some (ns, s1)) :
    s1 = s + hs.length ∧ forestHashes ns = List.range' s hs.length := by
  induction hs generalizing s ns s1 with
  | nil =>
    simp only [buildIKHandles, Option.some.injEq, Prod.mk.injEq] at h
    rw [← h.1, ← h.2]
    simp [forestHashes_nil]
  | cons hh rest ih =>
    simp only [buildIKHandles, Option.bind_eq_bind, Option.bind_eq_some,
      Option.some.injEq, Prod.mk.injEq] at h
    obtain ⟨n, hn, ⟨ns2, s2⟩, hrec, hns, hs1⟩ := h
    obtain ⟨ha, hb⟩ := ih _ _ _ hrec
    subst hns hs1 ha
    constructor
    · simp
      omega
    · simp [forestHashes_cons, ikHandleNode_hashes _ _ _ _ _ hn, hb,
        List.range'_succ]

theorem constraintNode_hashes (bc bst : Nat) (c : Constraint) (s : Nat)
    (n : CastNode) (he : constraintNode bc bst c s = some n) :
    nodeHashes n = [s] := by
  simp only [constraintNode, Option.bind_eq_bind, Option.bind_eq_some,
    Option.some.injEq] at he
  obtain ⟨cb, _, tb, _, hn⟩ := he
  rw [← hn, nodeHashes_mk, forestHashes_nil]

theorem buildConstraints_hashes (bc bst : Nat) (cs : List Constraint) (s : Nat)
    (ns : List CastNode) (s1 : Nat)
    (h : buildConstraints bc bst cs s = some (ns, s1)) :
    s1 = s + cs.length ∧ forestHashes ns = List.range' s cs.length := by
  induction cs generalizing s ns s1 with
  | nil =>
    simp only [buildConstraints, Option.some.injEq, Prod.mk.injEq] at h
    rw [← h.1, ← h.2]
    simp [forestHashes_nil]
  | cons cc rest ih =>
    simp only [buildConstraints, Option.bind_eq_bind, Option.bind_eq_some,
      Option.some.injEq, Prod.mk.injEq] at h
    obtain ⟨n, hn, ⟨ns2, s2⟩, hrec, hns, hs1⟩ := h
    obtain ⟨ha, hb⟩ := ih _ _ _ hrec
    subst hns hs1 ha
    constructor
    · simp
      omega
    · simp [forestHashes_cons, constraintNode_hashes _ _ _ _ _ hn, hb,
        List.range'_succ]

theorem buildTextures_hashes (ts : List MaterialTextureRef) (i fid : Nat)
    (used : List String) :
    forestHashes (buildTextures ts i fid used).1 = List.range' fid ts.length := by
  induction ts generalizing i fid used with
  | nil => simp [buildTextures, forestHashes_nil]
  | cons t rest ih =>
    simp [buildTextures, forestHashes_cons, nodeHashes_mk, forestHashes_nil,
      ih, List.range'_succ]

theorem materialNode_hashes (mat : Material) (s : Nat) :
    nodeHashes (materialNode mat s).1
      = List.range' s (mat.textures.length + 1) := by
  simp [materialNode, nodeHashes_mk, buildTextures_hashes, List.range'_succ]

/-- Node count of the material block. -/
def matsSize (ms : List Material) : Nat :=
  (ms.map (fun m => m.textures.length + 1)).sum

theorem buildMaterials_hashes (ms : List Material) (s : Nat) :
    forestHashes (buildMaterials ms s).1 = List.range' s (matsSize ms)
    ∧ (buildMaterials ms s).2 = s + matsSize ms := by
  induction ms generalizing s with
  | nil =>
    refine ⟨?_, by simp [buildMaterials, matsSize]⟩
    rw [show (buildMaterials [] s).1 = [] from rfl, forestHashes_nil]
    simp [matsSize]
  | cons m rest ih =>
    have hnext : (materialNode m s).2 = s + (m.textures.length + 1) := by
      simp [materialNode]
      omega
    obtain ⟨ih1, ih2⟩ := ih (s + (m.textures.length + 1))
    constructor
    · simp only [buildMaterials, forestHashes_cons, hnext,
        materialNode_hashes, ih1]
      rw [List.range'_append_1]
      simp only [matsSize, List.map_cons, List.sum_cons, List.range'_inj]
      exact ⟨by omega, Or.inr trivial⟩
    · simp only [buildMaterials, hnext, ih2, matsSize, List.map_cons,
        List.sum_cons]
      omega

theorem buildBlendShapes_hashes (mesh : Mesh) (mh : Nat)
    (bss : List BlendShape) (s : Nat) :
    forestHashes (buildBlendShapes mesh mh bss s) = List.range' s bss.length := by
  induction bss generalizing s with
  | nil => simp [buildBlendShapes, forestHashes_nil]
  | cons b rest ih =>
    simp [buildBlendShapes, forestHashes_cons, blendShapeNode, nodeHashes_mk,
      forestHashes_nil, ih, List.range'_succ]

/-- Node count of the mesh block. -/
def meshesSize (ms : List Mesh) : Nat :=
  (ms.map (fun m => m.blend_shapes.length + 1)).sum

theorem buildMeshes_hashes (bc : Nat) (mats : List Material) (mst : Nat)
    (ms : List Mesh) (s : Nat) :
    forestHashes (buildMeshes bc mats mst ms s).1 = List.range' s (meshesSize ms)
    ∧ (buildMeshes bc mats mst ms s).2 = s + meshesSize ms := by
  induction ms generalizing s with
  | nil =>
    refine ⟨?_, by simp [buildMeshes, meshesSize]⟩
    rw [show (buildMeshes bc mats mst [] s).1 = [] from rfl, forestHashes_nil]
    simp [meshesSize]
  | cons m rest ih =>
    have hone : forestHashes (buildMesh bc mats mst m s).1
        = List.range' s (m.blend_shapes.length + 1) := by
      simp [buildMesh, forestHashes_cons, forestHashes_nil, nodeHashes_mk,
        buildBlendShapes_hashes, List.range'_succ]
    have hnext : (buildMesh bc mats mst m s).2
        = s + (m.blend_shapes.length + 1) := by
      simp [buildMesh]
      omega
    obtain ⟨ih1, ih2⟩ := ih (s + (m.blend_shapes.length + 1))
    constructor
    · simp only [buildMeshes, forestHashes_append, hnext, hone, ih1]
      rw [List.range'_append_1]
      simp only [meshesSize, List.map_cons, List.sum_cons, List.range'_inj]
      exact ⟨by omega, Or.inr trivial⟩
    · simp only [buildMeshes, hnext, ih2, meshesSize, List.map_cons,
        List.sum_cons]
      omega

theorem buildSkeleton_hashes (skel : Skeleton) (ns : List CastNode) (s1 : Nat)
    (h : buildSkeleton skel = some (ns, s1)) :
    ∃ k, s1 = 3 + k ∧ forestHashes ns = List.range' 3 k := by
  cases hb : skel.bones.isEmpty with
  | true =>
    simp [buildSkeleton, hb] at h
    obtain ⟨h1, h2⟩ := h
    subst h1
    subst h2
    exact ⟨0, rfl, by rw [forestHashes_nil]; simp⟩
  | false =>
    simp only [buildSkeleton, hb, Bool.false_eq_true, if_false,
      Option.bind_eq_bind, Option.bind_eq_some, Option.some.injEq,
      Prod.mk.injEq] at h
    obtain ⟨⟨ik, sa⟩, hik, ⟨cn, sb⟩, hcn, hns, hs1⟩ := h
    obtain ⟨hsa, hikh⟩ := buildIKHandles_hashes _ _ _ _ _ _ hik
    obtain ⟨hsb, hcnh⟩ := buildConstraints_hashes _ _ _ _ _ _ hcn
    rw [hsa] at hcnh
    refine ⟨1 + skel.bones.length + skel.ik_handles.length
      + skel.constraints.length, by omega, ?_⟩
    rw [← hns, forestHashes_cons, forestHashes_nil, nodeHashes_mk,
      List.append_nil, forestHashes_append, forestHashes_append,
      buildBones_hashes, hikh, hcnh, List.range'_append_1,
      show 4 + skel.bones.length + skel.ik_handles.length
        = 4 + (skel.ik_handles.length + skel.bones.length) from by omega,
      List.range'_append_1,
      show (3 : Nat) :: List.range' 4 (skel.constraints.length
          + (skel.ik_handles.length + skel.bones.length))
        = List.range' 3 (skel.constraints.length
          + (skel.ik_handles.length + skel.bones.length) + 1) from
        (List.range'_succ 3 _ 1).symm]
    simp only [List.range'_inj]
    exact ⟨by omega, Or.inr trivial⟩

/-- C4: no two nodes of a tree produced by to_cast share an identity
hash; in particular every bone, file, material and mesh identity
stored into an Integer64 reference property is distinct within one
file.  The preorder hash list of the whole tree has no duplicate. -/
theorem identity_hashes_nodup (m : Model) (root : CastNode)
    (h : to_cast m = some root) : (nodeHashes root).Nodup := by
  rcases hsk : buildSkeleton m.skeleton with _ | ⟨skel, s1⟩
  · simp [to_cast, hsk] at h
  · simp only [to_cast, hsk, Option.bind_eq_bind, Option.some_bind,
      Option.some.injEq] at h
    subst h
    obtain ⟨k, hs1, hskh⟩ := buildSkeleton_hashes _ _ _ hsk
    subst hs1
    obtain ⟨hmath, hmat2⟩ := buildMaterials_hashes m.materials (3 + k)
    obtain ⟨hmeshh, _⟩ := buildMeshes_hashes m.skeleton.bones.length
      m.materials (3 + k) m.meshes (buildMaterials m.materials (3 + k)).2
    rw [nodeHashes_mk, forestHashes_cons, forestHashes_cons, forestHashes_nil,
      metadataNode, nodeHashes_mk, forestHashes_nil, nodeHashes_mk,
      forestHashes_append, forestHashes_append, hskh, hmath, hmeshh, hmat2,
      List.range'_append_1,
      show 3 + k + matsSize m.materials
        = 3 + (matsSize m.materials + k) from by omega,
      List.range'_append_1]
    have hfin : ∀ K : Nat, (0 :: 1 :: 2 :: List.range' 3 K).Nodup := by
      intro K
      rw [show (2 : Nat) :: List.range' 3 K = List.range' 2 (K + 1) from
            (List.range'_succ 2 K 1).symm,
          show (1 : Nat) :: List.range' 2 (K + 1) = List.range' 1 (K + 2) from
            (List.range'_succ 1 (K + 1) 1).symm,
          show (0 : Nat) :: List.range' 1 (K + 2) = List.range' 0 (K + 3) from
            (List.range'_succ 0 (K + 2) 1).symm]
      exact List.nodup_range' 0 (K + 3)
    simpa using hfin (meshesSize m.meshes + (matsSize m.materials + k))

/-- C4 witness: the concrete one-of-everything model has pairwise
distinct node identities. -/
theorem identity_hashes_nodup_witness :
    to_cast c9Model = some c9Root ∧ (nodeHashes c9Root).Nodup :=
  ⟨rfl, identity_hashes_nodup c9Model c9Root rfl⟩

/-! ## IK handle and constraint reference resolution (C3) -/

/-- Whether every bone reference of an IK handle is inside the bone
identity table of the given bone count. -/
def ikHandleOk (bc : Nat) (h : IKHandle) : Bool :=
  decide (h.start_bone < bc) && decide (h.end_bone < bc)
  && (match h.target_bone with
      | none => true
      | some t => decide (t < bc))
  && (match h.pole_vector_bone with
      | none => true
      | some t => decide (t < bc))
  && (match h.pole_bone with
      | none => true
      | some t => decide (t < bc))

/-- Whether both bone references of a constraint resolve. -/
def constraintOk (bc : Nat) (c : Constraint) : Bool :=
  decide (c.constraint_bone < bc) && decide (c.target_bone < bc)

theorem ikHandleNode_none (bc bst : Nat) (h : IKHandle) (s : Nat)
    (hok : ikHandleOk bc h = false) : ikHandleNode bc bst h s = none := by
  rcases h with ⟨nm, sb, eb, tb, pv, pb, tr⟩
  simp only [ikHandleOk, Bool.and_eq_false_iff, decide_eq_false_iff_not] at hok
  simp only [ikHandleNode, boneMapGet, optBoneRefProp]
  rcases tb with _ | t <;> rcases pv with _ | v <;> rcases pb with _ | b <;>
    simp_all <;> omega

theorem ikHandleNode_emits (bc bst : Nat) (h : IKHandle) (s : Nat)
    (hok : ikHandleOk bc h = true) :
    ∃ n, ikHandleNode bc bst h s = some n
      ∧ findProp n "sb" = some ⟨.Integer64, "sb", [.int64 (bst + h.start_bone)]⟩
      ∧ findProp n "eb" = some ⟨.Integer64, "eb", [.int64 (bst + h.end_bone)]⟩ := by
  rcases h with ⟨nm, sb, eb, tb, pv, pb, tr⟩
  simp only [ikHandleOk, Bool.and_eq_true, decide_eq_true_eq] at hok
  obtain ⟨⟨⟨⟨h1, h2⟩, h3⟩, h4⟩, h5⟩ := hok
  rcases tb with _ | t <;> rcases pv with _ | v <;> rcases pb with _ | b <;>
    rcases nm with _ | eme <;>
    simp_all [ikHandleNode, boneMapGet, optBoneRefProp, findProp,
      CastNode.properties]

theorem constraintNode_none (bc bst : Nat) (c : Constraint) (s : Nat)
    (hok : constraintOk bc c = false) : constraintNode bc bst c s = none := by
  rcases c with ⟨nm, ct, cb, tb, mo, sx, sy, sz⟩
  simp only [constraintOk, Bool.and_eq_false_iff, decide_eq_false_iff_not] at hok
  simp only [constraintNode, boneMapGet]
  rcases hok with hok | hok <;> simp_all <;> omega

theorem constraintNode_emits (bc bst : Nat) (c : Constraint) (s : Nat)
    (hok : constraintOk bc c = true) :
    ∃ n, constraintNode bc bst c s = some n
      ∧ findProp n "cb"
          = some ⟨.Integer64, "cb", [.int64 (bst + c.constraint_bone)]⟩
      ∧ findProp n "tb"
          = some ⟨.Integer64, "tb", [.int64 (bst + c.target_bone)]⟩ := by
  rcases c with ⟨nm, ct, cb, tb, mo, sx, sy, sz⟩
  simp only [constraintOk, Bool.and_eq_true, decide_eq_true_eq] at hok
  rcases nm with _ | eme <;> rcases ct with _ | _ | _ <;>
    simp_all [constraintNode, boneMapGet, findProp, CastNode.properties]

theorem buildIKHandles_none (bc bst : Nat) (hs : List IKHandle) (s : Nat)
    (hbad : ∃ h ∈ hs, ikHandleOk bc h = false) :
    buildIKHandles bc bst hs s = none := by
  induction hs generalizing s with
  | nil => simp at hbad
  | cons hh rest ih =>
    obtain ⟨h, hmem, hok⟩ := hbad
    rcases List.mem_cons.mp hmem with rfl | hmem2
    · simp [buildIKHandles, ikHandleNode_none _ bst _ s hok]
    · cases hn : ikHandleNode bc bst hh s with
      | none => simp [buildIKHandles, hn]
      | some n => simp [buildIKHandles, hn, ih (s + 1) ⟨h, hmem2, hok⟩]

theorem buildConstraints_none (bc bst : Nat) (cs : List Constraint) (s : Nat)
    (hbad : ∃ c ∈ cs, constraintOk bc c = false) :
    buildConstraints bc bst cs s = none := by
  induction cs generalizing s with
  | nil => simp at hbad
  | cons cc rest ih =>
    obtain ⟨c, hmem, hok⟩ := hbad
    rcases List.mem_cons.mp hmem with rfl | hmem2
    · simp [buildConstraints, constraintNode_none _ bst _ s hok]
    · cases hn : constraintNode bc bst cc s with
      | none => simp [buildConstraints, hn]
      | some n => simp [buildConstraints, hn, ih (s + 1) ⟨c, hmem2, hok⟩]

theorem buildSkeleton_none (skel : Skeleton) (hbones : skel.bones ≠ [])
    (hbad : (∃ h ∈ skel.ik_handles, ikHandleOk skel.bones.length h = false)
      ∨ (∃ c ∈ skel.constraints, constraintOk skel.bones.length c = false)) :
    buildSkeleton skel = none := by
  have hne : skel.bones.isEmpty = false := by
    simp [List.isEmpty_iff]
    exact hbones
  rcases hbad with hik | hcn
  · simp [buildSkeleton, hne, buildIKHandles_none _ 4 _ _ hik]
  · rcases hik2 : buildIKHandles skel.bones.length 4 skel.ik_handles
        (4 + skel.bones.length) with _ | ⟨ik, sa⟩
    · simp [buildSkeleton, hne, hik2]
    · simp [buildSkeleton, hne, hik2, buildConstraints_none _ 4 _ _ hcn]

/-- C3 amended: when the bone list is non-empty, the required
references of every IK handle and constraint are emitted with the
looked-up bone identities, and any bone index absent from the table
aborts to_cast with no tree and hence no output file; when the bone
list is empty the whole skeleton block, IK handles and constraints
included, is silently skipped and translation succeeds. -/
theorem ik_constraint_reference_resolution :
    (∀ m : Model, m.skeleton.bones ≠ [] →
      ((∃ h ∈ m.skeleton.ik_handles,
          ikHandleOk m.skeleton.bones.length h = false)
        ∨ (∃ c ∈ m.skeleton.constraints,
            constraintOk m.skeleton.bones.length c = false)) →
      to_cast m = none)
    ∧ (∀ (bc bst : Nat) (h : IKHandle) (s : Nat), ikHandleOk bc h = true →
        ∃ n, ikHandleNode bc bst h s = some n
          ∧ findProp n "sb"
              = some ⟨.Integer64, "sb", [.int64 (bst + h.start_bone)]⟩
          ∧ findProp n "eb"
              = some ⟨.Integer64, "eb", [.int64 (bst + h.end_bone)]⟩)
    ∧ (∀ (bc bst : Nat) (c : Constraint) (s : Nat), constraintOk bc c = true →
        ∃ n, constraintNode bc bst c s = some n
          ∧ findProp n "cb"
              = some ⟨.Integer64, "cb", [.int64 (bst + c.constraint_bone)]⟩
          ∧ findProp n "tb"
              = some ⟨.Integer64, "tb", [.int64 (bst + c.target_bone)]⟩)
    ∧ (∀ m : Model, m.skeleton.bones = [] →
        ∃ root, to_cast m = some root
          ∧ (root.children.getD 1 default).children.map CastNode.identifier =
              m.materials.map (fun _ => CastId.Material)
              ++ m.meshes.flatMap (fun mesh =>
                  CastId.Mesh :: mesh.blend_shapes.map
                    (fun _ => CastId.BlendShape))) := by
  refine ⟨?_, ikHandleNode_emits, constraintNode_emits, ?_⟩
  · intro m hbones hbad
    simp [to_cast, buildSkeleton_none m.skeleton hbones hbad]
  · intro m hb
    have hne : m.skeleton.bones.isEmpty = true := by simp [hb]
    have hsk : buildSkeleton m.skeleton = some ([], 3) := by
      simp [buildSkeleton, hne]
    refine ⟨_, by rw [to_cast, hsk]; rfl, ?_⟩
    simp only [to_cast, hsk, Option.bind_eq_bind, Option.some_bind,
      Option.getD_some, CastNode.children, List.getD, List.get?_cons_succ,
      List.get?_cons_zero, Option.getD_some, List.nil_append, List.map_append]
    rw [buildMaterials_kinds, buildMeshes_kinds]

/-- A model with no bones but one IK handle referencing bone 0. -/
def c3Model : Model :=
  ⟨.Y, ⟨[], [⟨none, 0, 0, none, none, none, false⟩], []⟩, [], []⟩

/-- The tree to_cast produces for the C3 counterexample model. -/
def c3Root : CastNode := (to_cast c3Model).getD default

/-- C3 counterexample: the bone list is empty, so the IK handle
reference to bone 0 is outside the table, yet translation succeeds and
the handle is silently dropped: the Model node has no children at all,
so no sb or eb reference is ever emitted and no error is raised. -/
theorem ik_reference_skipped_when_no_bones :
    c3Model.skeleton.bones.length = 0
    ∧ c3Model.skeleton.ik_handles.length = 1
    ∧ (to_cast c3Model).isSome = true
    ∧ (c3Root.children.getD 1 default).children.length = 0 :=
  ⟨rfl, rfl, rfl, rfl⟩

/-- A one-bone model whose IK handle start reference (bone 5) misses
the table. -/
def c3BadModel : Model :=
  ⟨.Y,
   ⟨[⟨some "b0", -1, none, none, none, none, none⟩],
    [⟨none, 5, 0, none, none, none, false⟩], []⟩, [], []⟩

/-- C3 amended witness: the bad reference aborts translation; in-range
references are emitted; the empty-bones model is skipped. -/
theorem ik_constraint_reference_resolution_witness :
    to_cast c3BadModel = none
    ∧ (∃ n, ikHandleNode 1 4 ⟨none, 0, 0, none, none, none, true⟩ 5 = some n
        ∧ findProp n "sb" = some ⟨.Integer64, "sb", [.int64 4]⟩
        ∧ findProp n "eb" = some ⟨.Integer64, "eb", [.int64 4]⟩)
    ∧ (∃ n, constraintNode 1 4 ⟨none, .Point, 0, 0, false, false, false, false⟩
          5 = some n
        ∧ findProp n "cb" = some ⟨.Integer64, "cb", [.int64 4]⟩
        ∧ findProp n "tb" = some ⟨.Integer64, "tb", [.int64 4]⟩)
    ∧ (∃ root, to_cast c3Model = some root
        ∧ (root.children.getD 1 default).children.map CastNode.identifier =
            c3Model.materials.map (fun _ => CastId.Material)
            ++ c3Model.meshes.flatMap (fun mesh =>
                CastId.Mesh :: mesh.blend_shapes.map
                  (fun _ => CastId.BlendShape))) := by
  refine ⟨?_, ?_, ?_, ?_⟩
  · exact ik_constraint_reference_resolution.1 c3BadModel (by simp [c3BadModel])
      (Or.inl ⟨⟨none, 5, 0, none, none, none, false⟩, by simp [c3BadModel],
        by decide⟩)
  · have h := ik_constraint_reference_resolution.2.1 1 4
      ⟨none, 0, 0, none, none, none, true⟩ 5 (by decide)
    simpa using h
  · have h := ik_constraint_reference_resolution.2.2.1 1 4
      ⟨none, .Point, 0, 0, false, false, false, false⟩ 5 (by decide)
    simpa using h
  · exact ik_constraint_reference_resolution.2.2.2 c3Model rfl

/-! ## Blend shape emission (C7) -/

theorem buildBlendShapes_getD (mesh : Mesh) (mh : Nat) (bss : List BlendShape)
    (s j : Nat) (hj : j < bss.length) :
    (buildBlendShapes mesh mh bss s).getD j default
      = blendShapeNode mesh mh (bss.getD j default) (s + j) := by
  induction bss generalizing s j with
  | nil => simp at hj
  | cons b rest ih =>
    cases j with
    | zero => simp [buildBlendShapes]
    | succ j =>
      simp only [buildBlendShapes, List.getD_cons_succ]
      rw [ih (s + 1) j (by simpa using hj)]
      congr 1
      omega

/-- C7: for every blend shape of every mesh, the vi and vp properties
hold exactly one element per delta-map entry (vi the present indices at
the width selected from the maximum present index, not the vertex
count), vp holds the base vertex position plus the stored delta, and
the mesh back-reference b (the owning mesh node identity) and the
target scale ts are always emitted. -/
theorem blend_shape_sparse_emission (bc : Nat) (mats : List Material)
    (mst : Nat) (mesh : Mesh) (s j : Nat)
    (hj : j < mesh.blend_shapes.length) :
    findProp ((buildMesh bc mats mst mesh s).1.getD (j + 1) default) "vi"
        = some ⟨selectWidth
            (blendShapeMaxIndex (mesh.blend_shapes.getD j default)), "vi",
          (mesh.blend_shapes.getD j default).vertex_deltas.map (fun kv =>
            indexValue (selectWidth
              (blendShapeMaxIndex (mesh.blend_shapes.getD j default))) kv.1)⟩
    ∧ findProp ((buildMesh bc mats mst mesh s).1.getD (j + 1) default) "vp"
        = some ⟨.Vector3, "vp",
          (mesh.blend_shapes.getD j default).vertex_deltas.map (fun kv =>
            .vec3 ((mesh.vertices.vertex kv.1).position + kv.2))⟩
    ∧ findProp ((buildMesh bc mats mst mesh s).1.getD (j + 1) default) "b"
        = some ⟨.Integer64, "b",
          [.int64 (((buildMesh bc mats mst mesh s).1.headD default).hash)]⟩
    ∧ findProp ((buildMesh bc mats mst mesh s).1.getD (j + 1) default) "ts"
        = some ⟨.Float, "ts",
          [.float (mesh.blend_shapes.getD j default).target_scale]⟩
    ∧ ((mesh.blend_shapes.getD j default).vertex_deltas.map (fun kv =>
          indexValue (selectWidth
            (blendShapeMaxIndex (mesh.blend_shapes.getD j default))) kv.1)).length
        = (mesh.blend_shapes.getD j default).vertex_deltas.length
    ∧ ((mesh.blend_shapes.getD j default).vertex_deltas.map (fun kv =>
          CastValue.vec3 ((mesh.vertices.vertex kv.1).position + kv.2))).length
        = (mesh.blend_shapes.getD j default).vertex_deltas.length := by
  have hnode : (buildMesh bc mats mst mesh s).1.getD (j + 1) default
      = blendShapeNode mesh s (mesh.blend_shapes.getD j default) (s + 1 + j) := by
    have : (buildMesh bc mats mst mesh s).1.getD (j + 1) default
        = (buildBlendShapes mesh s mesh.blend_shapes (s + 1)).getD j default := by
      simp [buildMesh, List.getD_cons_succ]
    rw [this, buildBlendShapes_getD mesh s mesh.blend_shapes (s + 1) j hj]
  have hhead : ((buildMesh bc mats mst mesh s).1.headD default).hash = s := rfl
  rw [hnode, hhead]
  refine ⟨?_, ?_, ?_, ?_, by simp, by simp⟩ <;>
    simp [blendShapeNode, findProp, CastNode.properties]

/-- A sparse-blend-shape example mesh: 70000 vertices, one blend shape
touching exactly the vertex indices 3 and 999. -/
def c7Mesh : Mesh :=
  ⟨some "base", ⟨List.replicate 70000 default, 0, 0, 0⟩, [], none,
   [⟨"smile", 1, [(3, ⟨1, 2, 3⟩), (999, ⟨4, 5, 6⟩)]⟩], .Linear⟩

set_option maxRecDepth 8000 in
/-- C7 witness: the blend-shape node emits exactly two elements per
stream at the 16-bit width keyed on the maximum present index 999,
while the 70000-vertex count would have selected 32 bits. -/
theorem blend_shape_sparse_emission_witness :
    (findProp ((buildMesh 0 [] 3 c7Mesh 3).1.getD 1 default) "vi"
        = some ⟨selectWidth
            (blendShapeMaxIndex (c7Mesh.blend_shapes.getD 0 default)), "vi",
          (c7Mesh.blend_shapes.getD 0 default).vertex_deltas.map (fun kv =>
            indexValue (selectWidth
              (blendShapeMaxIndex (c7Mesh.blend_shapes.getD 0 default))) kv.1)⟩)
    ∧ selectWidth (blendShapeMaxIndex (c7Mesh.blend_shapes.getD 0 default))
        = CastPropertyId.Short
    ∧ (c7Mesh.blend_shapes.getD 0 default).vertex_deltas.length = 2
    ∧ c7Mesh.vertices.len = 70000
    ∧ selectWidth c7Mesh.vertices.len ≠ CastPropertyId.Short := by
  have hlen : c7Mesh.vertices.len = 70000 := by
    rw [show c7Mesh.vertices.len
          = (List.replicate 70000 (default : Vertex)).length from rfl,
        List.length_replicate]
  refine ⟨(blend_shape_sparse_emission 0 [] 3 c7Mesh 3 0 (by decide)).1,
    by decide, by decide, hlen, ?_⟩
  intro h
  have h2 : selectWidth c7Mesh.vertices.len = CastPropertyId.Integer32 := by
    rw [hlen]
    rfl
  rw [h2] at h
  exact CastPropertyId.noConfusion h

/-! ## Minimal width selection (C1) -/

/-- Numeric payload of an integer-family cast value. -/
def valueNat : CastValue → Nat
  | .byte v => v
  | .short v => v
  | .int32 v => v
  | .int64 v => v
  | _ => 0

/-- Whether a cast value was emitted exactly at the given integer
width and fits it. -/
def valueAtWidth : CastValue → CastPropertyId → Bool
  | .byte v, .Byte => decide (v < 2 ^ 8)
  | .short v, .Short => decide (v < 2 ^ 16)
  | .int32 v, .Integer32 => decide (v < 2 ^ 32)
  | _, _ => false

theorem indexValue_atWidth (bound v : Nat) :
    valueAtWidth (indexValue (selectWidth bound) v) (selectWidth bound) = true := by
  unfold selectWidth indexValue valueAtWidth toU8 toU16 toU32
  split_ifs <;> simp <;> omega

theorem faceValues_fit (vc : Nat) (faces : List Face) :
    (faceValues vc faces).all (fun v => valueAtWidth v (selectWidth vc)) = true := by
  induction faces with
  | nil => rfl
  | cons f fs ih =>
    simp only [faceValues, List.flatMap_cons, List.all_append, List.all_cons,
      List.all_nil, indexValue_atWidth, Bool.and_true, Bool.true_and] at ih ⊢
    exact ih

theorem weightBoneValues_fit (vb : VertexBuffer) (bc : Nat) :
    (weightBoneValues vb (selectWidth bc)).all
      (fun v => valueAtWidth v (selectWidth bc)) = true := by
  rw [List.all_eq_true]
  intro v hv
  simp only [weightBoneValues, List.mem_flatMap, List.mem_map,
    List.mem_range] at hv
  obtain ⟨i, _, j, _, rfl⟩ := hv
  exact indexValue_atWidth bc _

theorem mem_le_foldr_max (l : List (Nat × Vector3)) (kv : Nat × Vector3)
    (h : kv ∈ l) : kv.1 ≤ (l.map Prod.fst).foldr max 0 := by
  induction l with
  | nil => simp at h
  | cons a rest ih =>
    rcases List.mem_cons.mp h with rfl | h2
    · simp only [List.map_cons, List.foldr_cons]
      exact Nat.le_max_left _ _
    · simp only [List.map_cons, List.foldr_cons]
      exact le_trans (ih h2) (Nat.le_max_right _ _)

theorem mem_le_blendShapeMaxIndex (bs : BlendShape) (kv : Nat × Vector3)
    (h : kv ∈ bs.vertex_deltas) : kv.1 ≤ blendShapeMaxIndex bs :=
  mem_le_foldr_max bs.vertex_deltas kv h

theorem blendShapeIndexValues_fit (bs : BlendShape) :
    (bs.vertex_deltas.map (fun kv =>
        indexValue (selectWidth (blendShapeMaxIndex bs)) kv.1)).all
      (fun v => valueAtWidth v (selectWidth (blendShapeMaxIndex bs))) = true := by
  rw [List.all_eq_true]
  intro v hv
  simp only [List.mem_map] at hv
  obtain ⟨kv, _, rfl⟩ := hv
  exact indexValue_atWidth _ _

/-- C1 amended: the selected width for each index stream is the
smallest of 8, 16, 32 bits that fits the selection key of the stream, and
every element is emitted at that width; the key however is the known
bound of the stream, not its actual maximum: the vertex count for face
indices, the bone count for weight bone indices, and only for blend
shape indices the maximum present index. -/
theorem minimal_width_keyed_on_bound (bc : Nat) (mats : List Material)
    (mst : Nat) (mesh : Mesh) (s : Nat) :
    (∀ bound : Nat,
      (selectWidth bound = CastPropertyId.Byte ↔ bound ≤ 255)
      ∧ (selectWidth bound = CastPropertyId.Short
          ↔ 255 < bound ∧ bound ≤ 65535)
      ∧ (selectWidth bound = CastPropertyId.Integer32 ↔ 65535 < bound))
    ∧ (∃ p, findProp ((buildMesh bc mats mst mesh s).1.headD default) "f"
          = some p
        ∧ p.id = selectWidth mesh.vertices.len
        ∧ p.values.all (fun v => valueAtWidth v p.id) = true)
    ∧ (bc ≠ 0 →
        ∃ p, findProp ((buildMesh bc mats mst mesh s).1.headD default) "wb"
            = some p
          ∧ p.id = selectWidth bc
          ∧ p.values.all (fun v => valueAtWidth v p.id) = true)
    ∧ (∀ j, j < mesh.blend_shapes.length →
        ∃ p, findProp ((buildMesh bc mats mst mesh s).1.getD (j + 1) default)
              "vi" = some p
          ∧ p.id = selectWidth
              (blendShapeMaxIndex (mesh.blend_shapes.getD j default))
          ∧ p.values.all (fun v => valueAtWidth v p.id) = true
          ∧ ∀ kv ∈ (mesh.blend_shapes.getD j default).vertex_deltas,
              kv.1 ≤ blendShapeMaxIndex (mesh.blend_shapes.getD j default)) := by
  refine ⟨?_, ?_, ?_, ?_⟩
  · intro bound
    unfold selectWidth
    split_ifs with h1 h2 <;> simp <;> omega
  · exact ⟨_, findProp_mesh_f bc (materialMapGet mats mst) mesh s, rfl,
      faceValues_fit _ _⟩
  · intro hbc
    exact ⟨_, findProp_mesh_wb bc (materialMapGet mats mst) mesh s hbc, rfl,
      weightBoneValues_fit _ _⟩
  · intro j hj
    have hnode : (buildMesh bc mats mst mesh s).1.getD (j + 1) default
        = blendShapeNode mesh s (mesh.blend_shapes.getD j default)
            (s + 1 + j) := by
      have h2 : (buildMesh bc mats mst mesh s).1.getD (j + 1) default
          = (buildBlendShapes mesh s mesh.blend_shapes (s + 1)).getD j default := by
        simp [buildMesh, List.getD_cons_succ]
      rw [h2, buildBlendShapes_getD mesh s mesh.blend_shapes (s + 1) j hj]
    rw [hnode]
    have hfind : findProp (blendShapeNode mesh s
        (mesh.blend_shapes.getD j default) (s + 1 + j)) "vi"
        = some ⟨selectWidth
            (blendShapeMaxIndex (mesh.blend_shapes.getD j default)), "vi",
          (mesh.blend_shapes.getD j default).vertex_deltas.map (fun kv =>
            indexValue (selectWidth
              (blendShapeMaxIndex (mesh.blend_shapes.getD j default))) kv.1)⟩ := by
      simp [blendShapeNode, findProp, CastNode.properties]
    exact ⟨_, hfind, rfl, blendShapeIndexValues_fit _,
      fun kv hkv => mem_le_blendShapeMaxIndex _ kv hkv⟩

/-- A mesh with 256 vertices and a single face over indices 0 1 2. -/
def c1Mesh : Mesh :=
  ⟨some "m", ⟨List.replicate 256 default, 0, 0, 0⟩, [⟨0, 1, 2⟩], none, [],
   .Linear⟩

/-- The model for the C1 counterexample. -/
def c1Model : Model := ⟨.Y, ⟨[], [], []⟩, [], [c1Mesh]⟩

/-- The tree to_cast produces for the C1 counterexample. -/
def c1Root : CastNode := (to_cast c1Model).getD default

/-- The mesh node of the C1 counterexample tree. -/
def c1MeshNode : CastNode :=
  (c1Root.children.getD 1 default).children.getD 0 default

/-- The face property of the C1 counterexample mesh node. -/
def c1FProp : CastProperty := (findProp c1MeshNode "f").getD default

set_option maxRecDepth 8000 in
/-- C1 counterexample: the maximum value of the face stream is 2, which
fits 8 bits, yet the property is emitted 16-bit, because the width is
keyed on the vertex count 256 rather than on the maximum of the stream. -/
theorem width_not_keyed_on_stream_max :
    (to_cast c1Model).isSome = true
    ∧ c1Mesh.vertices.len = 256
    ∧ c1FProp.id = CastPropertyId.Short
    ∧ (c1FProp.values.map valueNat).foldr max 0 = 2 := by
  refine ⟨rfl, by simp [c1Mesh, VertexBuffer.len], by decide, by decide⟩

/-- A two-vertex skinned mesh with one blend shape, for the C1 witness. -/
def c1WMesh : Mesh :=
  ⟨some "w", ⟨[default, default], 0, 1, 0⟩, [⟨0, 1, 0⟩], none,
   [⟨"bs", 1, [(1, ⟨0, 0, 0⟩)]⟩], .Linear⟩

/-- C1 amended witness at a concrete skinned mesh. -/
theorem minimal_width_keyed_on_bound_witness :
    (selectWidth 256 = CastPropertyId.Short ↔ 255 < 256 ∧ 256 ≤ 65535)
    ∧ (∃ p, findProp ((buildMesh 2 [] 3 c1WMesh 3).1.headD default) "f"
          = some p
        ∧ p.id = selectWidth c1WMesh.vertices.len
        ∧ p.values.all (fun v => valueAtWidth v p.id) = true)
    ∧ (∃ p, findProp ((buildMesh 2 [] 3 c1WMesh 3).1.headD default) "wb"
          = some p
        ∧ p.id = selectWidth 2
        ∧ p.values.all (fun v => valueAtWidth v p.id) = true)
    ∧ (∃ p, findProp ((buildMesh 2 [] 3 c1WMesh 3).1.getD 1 default) "vi"
          = some p
        ∧ p.id = selectWidth
            (blendShapeMaxIndex (c1WMesh.blend_shapes.getD 0 default))
        ∧ p.values.all (fun v => valueAtWidth v p.id) = true
        ∧ ∀ kv ∈ (c1WMesh.blend_shapes.getD 0 default).vertex_deltas,
            kv.1 ≤ blendShapeMaxIndex (c1WMesh.blend_shapes.getD 0 default)) := by
  have h := minimal_width_keyed_on_bound 2 [] 3 c1WMesh 3
  exact ⟨(h.1 256).2.1, h.2.1, h.2.2.1 (by decide), h.2.2.2 0 (by decide)⟩

/-- A three-vertex mesh with one face (5, 6, 7), for the C8 witness. -/
def c8Mesh : Mesh :=
  ⟨some "t", ⟨[default, default, default], 0, 0, 0⟩, [⟨5, 6, 7⟩], none, [],
   .Linear⟩

/-- C8 witness: the single face (i1, i2, i3) = (5, 6, 7) is emitted as
7, 6, 5. -/
theorem face_winding_reversed_witness :
    ∃ p, findProp ((buildMesh 0 [] 3 c8Mesh 3).1.headD default) "f" = some p
      ∧ p.values.length = 3 * c8Mesh.faces.length
      ∧ (p.values.getD 0 default
            = indexValue (selectWidth c8Mesh.vertices.len) 7
        ∧ p.values.getD 1 default
            = indexValue (selectWidth c8Mesh.vertices.len) 6
        ∧ p.values.getD 2 default
            = indexValue (selectWidth c8Mesh.vertices.len) 5) := by
  obtain ⟨p, hp, hlen, hpos⟩ := face_winding_reversed 0 [] 3 c8Mesh 3
  refine ⟨p, hp, hlen, ?_⟩
  have h := hpos 0 (by decide)
  simpa [c8Mesh] using h

/-! ## Decimal digits toolkit (for C6 slot names) -/

theorem natDigitsRev_zero : natDigitsRev 0 = [] := by
  simp [natDigitsRev]

theorem natDigitsRev_pos (n : Nat) (h : n ≠ 0) :
    natDigitsRev n = (n % 10) :: natDigitsRev (n / 10) := by
  rw [natDigitsRev]
  simp [h]

theorem natDigitsRev_eq_nil_iff (n : Nat) : natDigitsRev n = [] ↔ n = 0 := by
  constructor
  · intro h
    by_contra hn
    rw [natDigitsRev_pos n hn] at h
    simp at h
  · rintro rfl
    exact natDigitsRev_zero

theorem natDigitsRev_inj : ∀ m n : Nat, natDigitsRev m = natDigitsRev n → m = n := by
  intro m
  induction m using Nat.strong_induction_on with
  | _ m ih =>
    intro n h
    rcases Nat.eq_zero_or_pos m with rfl | hm
    · rcases Nat.eq_zero_or_pos n with rfl | hn
      · rfl
      · rw [natDigitsRev_zero, natDigitsRev_pos n (by omega)] at h
        exact absurd h (by simp)
    · rcases Nat.eq_zero_or_pos n with rfl | hn
      · rw [natDigitsRev_pos m (by omega), natDigitsRev_zero] at h
        exact absurd h (by simp)
      · rw [natDigitsRev_pos m (by omega), natDigitsRev_pos n (by omega)] at h
        simp only [List.cons.injEq] at h
        have hd := ih (m / 10) (Nat.div_lt_self hm (by omega)) (n / 10) h.2
        omega

theorem natDigitsRev_lt_ten : ∀ n : Nat, ∀ d ∈ natDigitsRev n, d < 10 := by
  intro n
  induction n using Nat.strong_induction_on with
  | _ n ih =>
    intro d hd
    rcases Nat.eq_zero_or_pos n with rfl | hn
    · rw [natDigitsRev_zero] at hd
      simp at hd
    · rw [natDigitsRev_pos n (by omega)] at hd
      rcases List.mem_cons.mp hd with rfl | hd2
      · omega
      · exact ih (n / 10) (Nat.div_lt_self hn (by omega)) d hd2

theorem natDigitsRev_getLast?_ne_zero :
    ∀ n : Nat, n ≠ 0 → ∀ d, (natDigitsRev n).getLast? = some d → d ≠ 0 := by
  intro n
  induction n using Nat.strong_induction_on with
  | _ n ih =>
    intro hn d hd
    rw [natDigitsRev_pos n hn] at hd
    rcases hrec : natDigitsRev (n / 10) with _ | ⟨x, xs⟩
    · rw [hrec] at hd
      simp at hd
      have h0 : n / 10 = 0 := (natDigitsRev_eq_nil_iff _).mp hrec
      omega
    · rw [hrec] at hd
      rw [List.getLast?_cons_cons] at hd
      have hne : n / 10 ≠ 0 := by
        intro h0
        rw [h0, natDigitsRev_zero] at hrec
        exact List.noConfusion hrec
      exact ih (n / 10) (Nat.div_lt_self (by omega) (by omega)) hne d
        (hrec ▸ hd)

theorem digitChar_inj (d e : Nat) (hd : d < 10) (he : e < 10)
    (h : digitChar d = digitChar e) : d = e := by
  interval_cases d <;> interval_cases e <;> simp_all [digitChar]

theorem map_digitChar_inj : ∀ l1 l2 : List Nat, (∀ d ∈ l1, d < 10) →
    (∀ d ∈ l2, d < 10) → l1.map digitChar = l2.map digitChar → l1 = l2 := by
  intro l1
  induction l1 with
  | nil =>
    intro l2 _ _ h
    cases l2 <;> simp_all
  | cons a as ih =>
    intro l2 h1 h2 h
    cases l2 with
    | nil => simp at h
    | cons b bs =>
      simp only [List.map_cons, List.cons.injEq] at h
      have ha := digitChar_inj a b (h1 a (by simp)) (h2 b (by simp)) h.1
      have hb := ih bs (fun d hd => h1 d (by simp [hd]))
        (fun d hd => h2 d (by simp [hd])) h.2
      rw [ha, hb]

theorem natDecimal_singleton_zero (n : Nat) (hn : n ≠ 0)
    (h : ("0" : String).data = ((natDigitsRev n).reverse.map digitChar)) :
    False := by
  rcases hrev : (natDigitsRev n).reverse with _ | ⟨x, xs⟩
  · rw [hrev] at h
    simp at h
  · rw [hrev] at h
    cases xs with
    | cons y ys => simp at h
    | nil =>
      simp at h
      have hx : natDigitsRev n = [x] := by
        have h2 := congrArg List.reverse hrev
        simpa using h2
      have hlast : x ≠ 0 :=
        natDigitsRev_getLast?_ne_zero n hn x (by simp [hx])
      have hx10 : x < 10 := natDigitsRev_lt_ten n x (by simp [hx])
      have h0 : (0 : Nat) = x :=
        digitChar_inj 0 x (by omega) hx10 (by simpa [digitChar] using h)
      omega

theorem natDecimal_inj (m n : Nat) (h : natDecimal m = natDecimal n) :
    m = n := by
  unfold natDecimal at h
  split_ifs at h with hm hn hn
  · omega
  · exact absurd (by simpa using congrArg String.data h)
      (fun h2 => natDecimal_singleton_zero n hn (by simpa using h2))
  · exact absurd (by simpa using (congrArg String.data h).symm)
      (fun h2 => natDecimal_singleton_zero m hm (by simpa using h2))
  · have hdata := congrArg String.data h
    simp at hdata
    have hrev := map_digitChar_inj _ _
      (fun d hd => natDigitsRev_lt_ten m d (by simpa using hd))
      (fun d hd => natDigitsRev_lt_ten n d (by simpa using hd)) hdata
    have h2 := congrArg List.reverse hrev
    simp at h2
    exact natDigitsRev_inj m n h2

/-! ## Slot name machinery (C6) -/

/-- The eleven semantic slot names of the usage table. -/
def semanticSlotNames : List String :=
  ["albedo", "diffuse", "specular", "normal", "emissive", "gloss",
   "roughness", "ao", "cavity", "metal", "aniso"]

theorem extraName_inj (i j : Nat) (h : extraName i = extraName j) : i = j := by
  unfold extraName at h
  have hdata := congrArg String.data h
  simp at hdata
  exact natDecimal_inj i j (String.ext hdata)

theorem extraName_ne_semantic (i : Nat) (nm : String)
    (h : nm ∈ semanticSlotNames) : extraName i ≠ nm := by
  intro he
  have hdata := congrArg String.data he
  fin_cases h <;> simp [extraName] at hdata

theorem textureSlotName_mem_or_extra (u : MaterialTextureRefUsage) (i : Nat) :
    textureSlotName u i ∈ semanticSlotNames
    ∨ textureSlotName u i = extraName i := by
  cases u <;> simp [textureSlotName, semanticSlotNames, extraName]

/-- The slot names the texture loop assigns, in texture order, as a
function of the usage list, the starting index and the used-name set. -/
def assignSlots : List MaterialTextureRefUsage → Nat → List String → List String
  | [], _, _ => []
  | u :: us, i, used =>
    if textureSlotName u i ∈ used then
      extraName i :: assignSlots us (i + 1) used
    else
      textureSlotName u i :: assignSlots us (i + 1) (textureSlotName u i :: used)

theorem assignSlots_length (us : List MaterialTextureRefUsage) (i : Nat)
    (used : List String) : (assignSlots us i used).length = us.length := by
  induction us generalizing i used with
  | nil => rfl
  | cons u rest ih =>
    simp only [assignSlots]
    split_ifs <;> simp [ih]

/-- The invariant of the used-name set: every member is a semantic
table name or an earlier positional fallback. -/
def UsedInv (used : List String) (i : Nat) : Prop :=
  ∀ x ∈ used, x ∈ semanticSlotNames ∨ ∃ k, k < i ∧ x = extraName k

theorem UsedInv.mono {used : List String} {i : Nat} (h : UsedInv used i) :
    UsedInv used (i + 1) := by
  intro x hx
  rcases h x hx with hs | ⟨k, hk, he⟩
  · exact Or.inl hs
  · exact Or.inr ⟨k, by omega, he⟩

theorem UsedInv.push {used : List String} {i : Nat} (h : UsedInv used i)
    (u : MaterialTextureRefUsage) :
    UsedInv (textureSlotName u i :: used) (i + 1) := by
  intro x hx
  rcases List.mem_cons.mp hx with rfl | hx2
  · rcases textureSlotName_mem_or_extra u i with hs | he
    · exact Or.inl hs
    · exact Or.inr ⟨i, by omega, he⟩
  · exact h.mono x hx2

theorem extraName_not_mem {used : List String} {i : Nat} (h : UsedInv used i) :
    extraName i ∉ used := by
  intro hmem
  rcases h _ hmem with hs | ⟨k, hk, he⟩
  · exact extraName_ne_semantic i _ hs rfl
  · exact absurd (extraName_inj i k he) (by omega)

theorem assignSlots_not_mem_used (us : List MaterialTextureRefUsage) :
    ∀ (i : Nat) (used : List String), UsedInv used i →
      ∀ x ∈ assignSlots us i used, x ∉ used := by
  induction us with
  | nil => intro i used _ x hx; simp [assignSlots] at hx
  | cons u rest ih =>
    intro i used hinv x hx
    simp only [assignSlots] at hx
    split_ifs at hx with hc
    · rcases List.mem_cons.mp hx with rfl | hx2
      · exact extraName_not_mem hinv
      · exact ih (i + 1) used hinv.mono x hx2
    · rcases List.mem_cons.mp hx with rfl | hx2
      · exact hc
      · intro hmem
        exact ih (i + 1) _ (hinv.push u) x hx2 (by simp [hmem])

theorem assignSlots_mem_shape (us : List MaterialTextureRefUsage) :
    ∀ (i : Nat) (used : List String), ∀ x ∈ assignSlots us i used,
      x ∈ semanticSlotNames ∨ ∃ k, i ≤ k ∧ x = extraName k := by
  induction us with
  | nil => intro i used x hx; simp [assignSlots] at hx
  | cons u rest ih =>
    intro i used x hx
    simp only [assignSlots] at hx
    split_ifs at hx with hc
    · rcases List.mem_cons.mp hx with rfl | hx2
      · exact Or.inr ⟨i, le_refl i, rfl⟩
      · rcases ih (i + 1) used x hx2 with hs | ⟨k, hk, he⟩
        · exact Or.inl hs
        · exact Or.inr ⟨k, by omega, he⟩
    · rcases List.mem_cons.mp hx with rfl | hx2
      · rcases textureSlotName_mem_or_extra u i with hs | he
        · exact Or.inl hs
        · exact Or.inr ⟨i, le_refl i, he⟩
      · rcases ih (i + 1) _ x hx2 with hs | ⟨k, hk, he⟩
        · exact Or.inl hs
        · exact Or.inr ⟨k, by omega, he⟩

theorem assignSlots_nodup (us : List MaterialTextureRefUsage) :
    ∀ (i : Nat) (used : List String), UsedInv used i →
      (assignSlots us i used).Nodup := by
  induction us with
  | nil => intro i used _; simp [assignSlots]
  | cons u rest ih =>
    intro i used hinv
    simp only [assignSlots]
    split_ifs with hc
    · refine List.Nodup.cons ?_ (ih (i + 1) used hinv.mono)
      intro hmem
      rcases assignSlots_mem_shape rest (i + 1) used _ hmem with hs | ⟨k, hk, he⟩
      · exact extraName_ne_semantic i _ hs rfl
      · exact absurd (extraName_inj i k he) (by omega)
    · refine List.Nodup.cons ?_ (ih (i + 1) _ (hinv.push u))
      intro hmem
      exact assignSlots_not_mem_used rest (i + 1) _ (hinv.push u) _ hmem
        (by simp)

theorem assignSlots_keeps (us : List MaterialTextureRefUsage) :
    ∀ (i : Nat) (used : List String), UsedInv used i →
      ∀ j, j < us.length →
        textureSlotName (us.getD j .Unknown) (i + j) ∉ used →
        (∀ k, k < j → (assignSlots us i used).getD k ""
          ≠ textureSlotName (us.getD j .Unknown) (i + j)) →
        (assignSlots us i used).getD j ""
          = textureSlotName (us.getD j .Unknown) (i + j) := by
  induction us with
  | nil => intro i used _ j hj; simp at hj
  | cons u rest ih =>
    intro i used hinv j hj hnotused hnotearlier
    cases j with
    | zero =>
      simp only [List.getD_cons_zero, Nat.add_zero] at hnotused ⊢
      simp only [assignSlots, if_neg hnotused, List.getD_cons_zero]
    | succ j =>
      have hshift : i + (j + 1) = (i + 1) + j := by omega
      rw [hshift] at hnotused ⊢
      simp only [List.getD_cons_succ] at hnotused ⊢
      simp only [assignSlots]
      split_ifs with hc
      · simp only [List.getD_cons_succ]
        refine ih (i + 1) used hinv.mono j (by simpa using hj) hnotused ?_
        intro k hk
        have h2 := hnotearlier (k + 1) (by omega)
        rw [hshift] at h2
        simp only [assignSlots, if_pos hc, List.getD_cons_succ,
          List.getD_cons_zero] at h2
        exact h2
      · simp only [List.getD_cons_succ]
        refine ih (i + 1) _ (hinv.push u) j (by simpa using hj) ?_ ?_
        · intro hmem
          rcases List.mem_cons.mp hmem with he | hmem2
          · have h0 := hnotearlier 0 (by omega)
            rw [hshift] at h0
            simp only [assignSlots, if_neg hc, List.getD_cons_zero] at h0
            exact h0 he.symm
          · exact hnotused hmem2
        · intro k hk
          have h2 := hnotearlier (k + 1) (by omega)
          rw [hshift] at h2
          simp only [assignSlots, if_neg hc, List.getD_cons_succ,
            List.getD_cons_zero] at h2
          exact h2

theorem assignSlots_demotes (us : List MaterialTextureRefUsage) :
    ∀ (i : Nat) (used : List String), UsedInv used i →
      ∀ j, j < us.length →
        (assignSlots us i used).getD j ""
          ≠ textureSlotName (us.getD j .Unknown) (i + j) →
        (textureSlotName (us.getD j .Unknown) (i + j) ∈ used
          ∨ ∃ k, k < j ∧ (assignSlots us i used).getD k ""
              = textureSlotName (us.getD j .Unknown) (i + j))
        ∧ (assignSlots us i used).getD j "" = extraName (i + j) := by
  induction us with
  | nil => intro i used _ j hj; simp at hj
  | cons u rest ih =>
    intro i used hinv j hj hne
    cases j with
    | zero =>
      simp only [List.getD_cons_zero, Nat.add_zero] at hne ⊢
      by_cases hc : textureSlotName u i ∈ used
      · simp only [assignSlots, if_pos hc, List.getD_cons_zero]
        exact ⟨Or.inl hc, by simp⟩
      · exact absurd (by simp [assignSlots, if_neg hc]) hne
    | succ j =>
      have hshift : i + (j + 1) = (i + 1) + j := by omega
      rw [hshift] at hne ⊢
      simp only [List.getD_cons_succ] at hne ⊢
      by_cases hc : textureSlotName u i ∈ used
      · rw [show assignSlots (u :: rest) i used
              = extraName i :: assignSlots rest (i + 1) used from by
            simp [assignSlots, hc]] at hne ⊢
        simp only [List.getD_cons_succ] at hne ⊢
        obtain ⟨hor, hex⟩ := ih (i + 1) used hinv.mono j (by simpa using hj) hne
        refine ⟨?_, hex⟩
        rcases hor with hu | ⟨k, hk, he⟩
        · exact Or.inl hu
        · exact Or.inr ⟨k + 1, by omega, by simpa using he⟩
      · rw [show assignSlots (u :: rest) i used
              = textureSlotName u i
                :: assignSlots rest (i + 1) (textureSlotName u i :: used) from by
            simp [assignSlots, hc]] at hne ⊢
        simp only [List.getD_cons_succ] at hne ⊢
        obtain ⟨hor, hex⟩ := ih (i + 1) _ (hinv.push u) j (by simpa using hj) hne
        refine ⟨?_, hex⟩
        rcases hor with hu | ⟨k, hk, he⟩
        · rcases List.mem_cons.mp hu with he2 | hu2
          · exact Or.inr ⟨0, by omega, by simpa using he2.symm⟩
          · exact Or.inl hu2
        · exact Or.inr ⟨k + 1, by omega, by simpa using he⟩

theorem assignSlots_getD_or (us : List MaterialTextureRefUsage) :
    ∀ (i : Nat) (used : List String) (j : Nat), j < us.length →
      (assignSlots us i used).getD j ""
          = textureSlotName (us.getD j .Unknown) (i + j)
      ∨ (assignSlots us i used).getD j "" = extraName (i + j) := by
  induction us with
  | nil => intro i used j hj; simp at hj
  | cons u rest ih =>
    intro i used j hj
    cases j with
    | zero =>
      simp only [assignSlots, List.getD_cons_zero, Nat.add_zero]
      split_ifs <;> simp
    | succ j =>
      have hshift : i + (j + 1) = (i + 1) + j := by omega
      simp only [assignSlots, List.getD_cons_succ, hshift]
      split_ifs <;> simp only [List.getD_cons_succ] <;>
        exact ih (i + 1) _ j (by simpa using hj)

theorem buildTextures_props_integer64 (ts : List MaterialTextureRef) :
    ∀ (i fid : Nat) (used : List String),
      ∀ p ∈ (buildTextures ts i fid used).2,
        p.id = CastPropertyId.Integer64 := by
  induction ts with
  | nil => intro i fid used p hp; simp [buildTextures] at hp
  | cons t rest ih =>
    intro i fid used p hp
    simp only [buildTextures] at hp
    rcases List.mem_cons.mp hp with rfl | hp2
    · rfl
    · exact ih _ _ _ p hp2

theorem buildTextures_slotNames (ts : List MaterialTextureRef) :
    ∀ (i fid : Nat) (used : List String),
      (buildTextures ts i fid used).2.map (fun p => p.name)
        = assignSlots (ts.map (fun t => t.texture_usage)) i used := by
  induction ts with
  | nil => intro i fid used; rfl
  | cons t rest ih =>
    intro i fid used
    simp only [buildTextures, assignSlots, List.map_cons]
    split_ifs with hc <;> simp [ih]

/-- The names of the Integer64 texture-slot properties of a node. -/
def slotPropNames (n : CastNode) : List String :=
  (n.properties.filter (fun p => p.id == CastPropertyId.Integer64)).map
    (fun p => p.name)

theorem slotPropNames_materialNode (mat : Material) (s : Nat) :
    slotPropNames (materialNode mat s).1
      = assignSlots (mat.textures.map (fun t => t.texture_usage)) 0 [] := by
  have hfil : (materialNode mat s).1.properties.filter
      (fun p => p.id == CastPropertyId.Integer64)
      = (buildTextures mat.textures 0 (s + 1) []).2 := by
    have hall : ∀ p ∈ (buildTextures mat.textures 0 (s + 1) []).2,
        (p.id == CastPropertyId.Integer64) = true := by
      intro p hp
      simp [buildTextures_props_integer64 _ _ _ _ p hp]
    simp only [materialNode, CastNode.properties, List.filter_append]
    rw [List.filter_eq_self.mpr hall]
    simp
  unfold slotPropNames
  rw [hfil, buildTextures_slotNames]

/-- C6: on every material the texture slot property names are exactly
the slot assignment of the usage list: one name per texture, pairwise
distinct; each name is the semantic table name of its usage or the
positional fallback; a texture whose computed name is not claimed by
any earlier texture keeps it, and a demoted texture both points back
to an earlier holder of its computed name and carries its own
positional fallback name. -/
theorem texture_slot_names_unique (mat : Material) (s : Nat) :
    slotPropNames (materialNode mat s).1
        = assignSlots (mat.textures.map (fun t => t.texture_usage)) 0 []
    ∧ (slotPropNames (materialNode mat s).1).length = mat.textures.length
    ∧ (slotPropNames (materialNode mat s).1).Nodup
    ∧ (∀ j, j < mat.textures.length →
        (slotPropNames (materialNode mat s).1).getD j ""
            = textureSlotName
                ((mat.textures.map (fun t => t.texture_usage)).getD j .Unknown) j
        ∨ (slotPropNames (materialNode mat s).1).getD j "" = extraName j)
    ∧ (∀ j, j < mat.textures.length →
        (∀ k, k < j → (slotPropNames (materialNode mat s).1).getD k ""
            ≠ textureSlotName
                ((mat.textures.map (fun t => t.texture_usage)).getD j .Unknown) j) →
        (slotPropNames (materialNode mat s).1).getD j ""
          = textureSlotName
              ((mat.textures.map (fun t => t.texture_usage)).getD j .Unknown) j)
    ∧ (∀ j, j < mat.textures.length →
        (slotPropNames (materialNode mat s).1).getD j ""
            ≠ textureSlotName
                ((mat.textures.map (fun t => t.texture_usage)).getD j .Unknown) j →
        (∃ k, k < j ∧ (slotPropNames (materialNode mat s).1).getD k ""
            = textureSlotName
                ((mat.textures.map (fun t => t.texture_usage)).getD j .Unknown) j)
        ∧ (slotPropNames (materialNode mat s).1).getD j "" = extraName j) := by
  have hlink := slotPropNames_materialNode mat s
  have hinv : UsedInv [] 0 := fun x hx => absurd hx (List.not_mem_nil x)
  refine ⟨hlink, ?_, ?_, ?_, ?_, ?_⟩
  · rw [hlink, assignSlots_length]
    simp
  · rw [hlink]
    exact assignSlots_nodup _ 0 [] hinv
  · intro j hj
    rw [hlink]
    have h := assignSlots_getD_or (mat.textures.map (fun t => t.texture_usage))
      0 [] j (by simpa using hj)
    simpa using h
  · intro j hj hk
    rw [hlink]
    have h := assignSlots_keeps (mat.textures.map (fun t => t.texture_usage))
      0 [] hinv j (by simpa using hj) (by simp) ?_
    · simpa using h
    · intro k hkj
      have h2 := hk k hkj
      rw [hlink] at h2
      simpa using h2
  · intro j hj hne
    rw [hlink] at hne ⊢
    have h := assignSlots_demotes (mat.textures.map (fun t => t.texture_usage))
      0 [] hinv j (by simpa using hj) (by simpa using hne)
    obtain ⟨hor, hex⟩ := h
    refine ⟨?_, by simpa using hex⟩
    rcases hor with hu | ⟨k, hk, he⟩
    · exact absurd hu (List.not_mem_nil _)
    · exact ⟨k, hk, by simpa using he⟩

/-- A material with two Albedo textures, the C6 witness input. -/
def c6Mat : Material := ⟨"m", [⟨"a.png", .Albedo⟩, ⟨"b.png", .Albedo⟩]⟩

/-- C6 witness: with two Albedo textures the first keeps the semantic
name albedo and the second is demoted to its positional fallback, and
the two names differ. -/
theorem texture_slot_names_unique_witness :
    slotPropNames (materialNode c6Mat 3).1 = ["albedo", extraName 1]
    ∧ ("albedo" : String) ≠ extraName 1
    ∧ (slotPropNames (materialNode c6Mat 3).1).Nodup := by
  have h := texture_slot_names_unique c6Mat 3
  have heval : assignSlots (c6Mat.textures.map (fun t => t.texture_usage)) 0 []
      = ["albedo", extraName 1] := by
    simp [c6Mat, assignSlots, textureSlotName]
  refine ⟨h.1.trans heval, ?_, h.2.2.1⟩
  exact fun he =>
    extraName_ne_semantic 1 "albedo" (by simp [semanticSlotNames]) he.symm

end Porter
